import Mathlib

/-!
Verification of the CIRCT FIRRTL interprocedural passes
`IMConstProp.cpp` and `IMDeadCodeElim.cpp` (shallow embedding).

Machine integers (`APSInt`) are modelled as a width, a signedness flag and a
bit pattern stored as a `Nat`; lattice maps are total functions with the
`Unknown` default, mirroring `DenseMap<Key, LatticeValue>` whose
default-constructed mapped value is the `Unknown` lattice state.
-/

namespace IMCP

/-- Model of an MLIR `IntegerAttr` payload (an `APSInt`): a bit width, a
signedness flag and the raw bit pattern (intended `bits < 2 ^ width`). -/
structure IntegerAttrM where
  width : Nat
  signed : Bool
  bits : Nat
  deriving DecidableEq, Repr

/-- Numeric value of an `APSInt`: two's-complement reading when signed,
plain reading when unsigned. -/
def IntegerAttrM.toInt (a : IntegerAttrM) : Int :=
  if a.signed = true ∧ 2 ^ (a.width - 1) ≤ a.bits then
    (a.bits : Int) - ((2 ^ a.width : Nat) : Int)
  else
    (a.bits : Int)

/-- Well-formedness of an attribute: the bit pattern fits in the width. -/
def IntegerAttrM.wf (a : IntegerAttrM) : Prop := a.bits < 2 ^ a.width

instance : DecidablePred IntegerAttrM.wf :=
  fun a => Nat.decLt a.bits (2 ^ a.width)

/-- Model of the MLIR attributes a `LatticeValue` may hold: a `BoolAttr`
(special constants for clock/reset types) or an `IntegerAttr`.  The lattice
never stores a non-integer attribute: fold results carrying one are turned
into Overdefined by `visitOperation`. -/
inductive Attr where
  | bool (b : Bool)
  | int (a : IntegerAttrM)
  deriving DecidableEq, Repr

/-- Model of `LatticeValue` (IMConstProp.cpp): the 4-state SCCP lattice.
The C++ class stores a `PointerIntPair<Attribute, 2, Kind>`; equality of two
lattice values is equality of the (attribute, kind) pair. -/
inductive LatticeValue where
  | unknown
  | unwritten
  | constant (a : Attr)
  | overdefined
  deriving DecidableEq, Repr

namespace LatticeValue

def isUnknown : LatticeValue → Bool
  | unknown => true
  | _ => false

def isUnwritten : LatticeValue → Bool
  | unwritten => true
  | _ => false

def isConstant : LatticeValue → Bool
  | constant _ => true
  | _ => false

def isOverdefined : LatticeValue → Bool
  | overdefined => true
  | _ => false

/-- Model of `LatticeValue::mergeIn` (IMConstProp.cpp:196-225).  Returns the
updated lattice value together with the "changed" flag returned by the C++
member function. -/
def mergeIn (x rhs : LatticeValue) : LatticeValue × Bool :=
  -- If we are already overdefined, or rhs is unknown, there is nothing to do.
  if x.isOverdefined || rhs.isUnknown then (x, false)
  -- If we are unknown, just take the value of rhs.
  else if x.isUnknown then (rhs, true)
  -- Unwritten values don't add value.
  else if rhs.isUnwritten then (x, false)
  -- In unwritten, only promote.
  else if x.isUnwritten then (rhs, true)
  -- Otherwise, if this value doesn't match rhs go straight to overdefined.
  else if x ≠ rhs then (overdefined, true)
  else (x, false)

end LatticeValue

mutual

/-- Model of FIRRTL base types: a ground bit-vector type (width `-1` stands
for an unknown width, as in `getBitWidthOrSentinel`), a bundle over a list of
element types, or a vector.  Flip polarity is not modelled, so
`getPassiveType` is the identity. -/
inductive FType where
  | ground (width : Int) (signed : Bool)
  | bundle (elts : FTypes)
  | vector (elt : FType) (n : Nat)
  deriving DecidableEq, Repr

/-- A list of bundle element types (a separate inductive so equality stays
decidable). -/
inductive FTypes where
  | nil
  | cons (head : FType) (tail : FTypes)
  deriving DecidableEq, Repr

end

def FType.isGround : FType → Bool
  | .ground _ _ => true
  | _ => false

def FType.getPassiveType (t : FType) : FType := t

/-- `FIRRTLBaseType::getBitWidthOrSentinel`: the width of a ground type
(−1 when unknown), −2 for aggregates. -/
def FType.getBitWidthOrSentinel : FType → Int
  | .ground w _ => w
  | _ => -2

mutual

/-- Recursion of `foreachFIRRTLGroundType` (IMConstProp.cpp:61-82): the
fieldID counter is incremented before recursing into each aggregate element,
and each ground leaf is reported at the counter's current value. -/
def foreachAux : FType → Nat → List (Nat × FType) × Nat
  | FType.bundle elts, fid => foreachAuxList elts fid
  | FType.vector elt (n+1), fid =>
      let p := foreachAux elt (fid + 1)
      let q := foreachAux (FType.vector elt n) p.2
      (p.1 ++ q.1, q.2)
  | FType.vector _ 0, fid => ([], fid)
  | t, fid => ([(fid, t)], fid)
termination_by t _ => sizeOf t

def foreachAuxList : FTypes → Nat → List (Nat × FType) × Nat
  | .nil, fid => ([], fid)
  | .cons t ts, fid =>
      let p := foreachAux t (fid + 1)
      let q := foreachAuxList ts p.2
      (p.1 ++ q.1, q.2)
termination_by l _ => sizeOf l

end

/-- Model of `foreachFIRRTLGroundType` (IMConstProp.cpp:50-83): a ground type
yields the single leaf `(0, type)`; otherwise the leaves are enumerated in
pre-order starting the counter at 0. -/
def foreachFIRRTLGroundType (t : FType) : List (Nat × FType) :=
  if t.isGround then [(0, t)] else (foreachAux t 0).1

/-- A `FieldRef`: the pair of a root value id and a fieldID. -/
abbrev Key := Nat × Nat

/-- `getFieldRefFromValue`: model values are their own roots (aggregate
indexing operations are not part of the embedded fragments). -/
def getFieldRefFromValue (v : Nat) : Key := (v, 0)

/-- `FieldRef::getSubField`: offset the fieldID. -/
def getSubField (k : Key) (fid : Nat) : Key := (k.1, k.2 + fid)

/-- Analysis state of `IMConstPropPass`: the `latticeValues` map (total, with
the `Unknown` default of a default-constructed `LatticeValue`), the
`changedLatticeValueWorklist`, and the list of emitted diagnostics (recorded
by the destination value id of the offending connect). -/
structure PropState where
  map : Key → LatticeValue
  worklist : List Key
  diags : List Nat

def PropState.init : PropState := ⟨fun _ => .unknown, [], []⟩

/-- Pointwise update of a lattice map. -/
def updateMap (m : Key → LatticeValue) (k : Key) (v : LatticeValue) :
    Key → LatticeValue :=
  fun k' => if k' = k then v else m k'

/-- Model of `IMConstPropPass::markOverdefined(Key)` (IMConstProp.cpp:287-296). -/
def markOverdefinedKey (s : PropState) (k : Key) : PropState :=
  if (s.map k).isOverdefined then s
  else { s with map := updateMap s.map k .overdefined,
                worklist := k :: s.worklist }

/-- Model of `IMConstPropPass::markUnwritten(Key)` (IMConstProp.cpp:300-309). -/
def markUnwrittenKey (s : PropState) (k : Key) : PropState :=
  if (s.map k).isUnwritten then s
  else { s with map := updateMap s.map k .unwritten,
                worklist := k :: s.worklist }

/-- Model of `IMConstPropPass::markOverdefined(Value)`
(IMConstProp.cpp:277-283): mark every ground leaf of the value Overdefined. -/
def markOverdefinedValue (s : PropState) (v : Nat) (t : FType) : PropState :=
  (foreachFIRRTLGroundType t).foldl
    (fun s p => markOverdefinedKey s (getSubField (getFieldRefFromValue v) p.1)) s

/-- Model of `IMConstPropPass::markUnwritten(Value)` (IMConstProp.cpp:311-317).
The body iterates the ground leaves and calls `markOverdefined` on each
subfield key; it does not call `markUnwritten(Key)`. -/
def markUnwrittenValue (s : PropState) (v : Nat) (t : FType) : PropState :=
  (foreachFIRRTLGroundType t).foldl
    (fun s p => markOverdefinedKey s (getSubField (getFieldRefFromValue v) p.1)) s

/-- The slice of a `WireOp`/`RegOp`/`RegResetOp` that `markWireOrRegOp`
inspects: its result value id, the result's FIRRTL type, and whether the
operation carries a do-not-touch marker. -/
structure WireOrRegOpM where
  res : Nat
  type : FType
  dontTouch : Bool
  deriving DecidableEq, Repr

/-- Model of `IMConstPropPass::markWireOrRegOp` (IMConstProp.cpp:560-574):
non-ground (aggregate) result types and do-not-touch declarations are marked
Overdefined; otherwise the result is handed to `markUnwritten(Value)`. -/
def markWireOrRegOp (s : PropState) (op : WireOrRegOpM) : PropState :=
  if !(op.type.getPassiveType.isGround) then markOverdefinedValue s op.res op.type
  else if op.dontTouch then markOverdefinedValue s op.res op.type
  else markUnwrittenValue s op.res op.type

/-- Modelled from the spec: `extOrTruncZeroWidth` (declared in
`circt/Support/APInt.h`, whose implementation is not under `src/`): resize an
`APSInt` to the given width — extension uses the signedness of the source and
preserves the numeric value, truncation keeps the low bits, and a zero-width
source resizes to zero. -/
def extOrTruncZeroWidth (a : IntegerAttrM) (w : Nat) : IntegerAttrM :=
  if a.width = 0 then ⟨w, a.signed, 0⟩
  else if a.width ≤ w then ⟨w, a.signed, (a.toInt.emod ((2 : Int) ^ w)).toNat⟩
  else ⟨w, a.signed, a.bits % 2 ^ w⟩

/-- Model of `IMConstPropPass::getExtendedLatticeValue`
(IMConstProp.cpp:479-511).  The `allowTruncation` parameter is accepted and,
as in the source, never read by the body. -/
def getExtendedLatticeValue (m : Key → LatticeValue) (value : Key)
    (destType : FType) (allowTruncation : Bool) : LatticeValue :=
  let result := m value
  match result with
  -- Unknown/overdefined/unwritten stay whatever they are.
  | .unknown => .unknown
  | .overdefined => .overdefined
  | .unwritten => .unwritten
  | .constant attr =>
    match attr with
    -- A BoolAttr is a special constant: no extOrTrunc for clock/reset types.
    | .bool b => .constant (.bool b)
    | .int a =>
      let destWidth := destType.getBitWidthOrSentinel
      -- Unknown-width FIRRTL is not supported.
      if destWidth = -1 then .overdefined
      else if (a.width : Int) = destWidth then result
      else .constant (.int (extOrTruncZeroWidth a destWidth.toNat))

/-- Model of `IMConstPropPass::mergeLatticeValue(Key, LatticeValue&,
LatticeValue)` (IMConstProp.cpp:322-331): merge into the entry and push the
key onto the worklist when the merge changed it. -/
def mergeLatticeValueEntry (s : PropState) (k : Key) (source : LatticeValue) :
    PropState :=
  let r := (s.map k).mergeIn source
  if r.2 then { s with map := updateMap s.map k r.1, worklist := k :: s.worklist }
  else s

/-- Model of `IMConstPropPass::mergeLatticeValue(Key, LatticeValue)`
(IMConstProp.cpp:333-338): skip entirely when the source has no information. -/
def mergeLatticeValue (s : PropState) (k : Key) (source : LatticeValue) :
    PropState :=
  if source.isUnknown then s
  else mergeLatticeValueEntry s k source

/-- Model of `IMConstPropPass::mergeLatticeValue(Key result, Key from)`
(IMConstProp.cpp:340-347): a key never stored in the map reads back as
Unknown, which `mergeLatticeValue` then drops — equivalent to the source's
find-check on the `DenseMap`. -/
def mergeLatticeValueKeys (s : PropState) (result fromKey : Key) : PropState :=
  mergeLatticeValue s result (s.map fromKey)

/-- Model of `IMConstPropPass::setLatticeValue` (IMConstProp.cpp:371-382):
overwrite the entry without merging, pushing the key when it changed. -/
def setLatticeValue (s : PropState) (k : Key) (source : LatticeValue) :
    PropState :=
  -- Don't even do a map lookup if the source has no info in it.
  if source.isUnknown then s
  else if s.map k ≠ source then
    { s with map := updateMap s.map k source, worklist := k :: s.worklist }
  else s

/-- A generic foldable operation as `visitOperation`'s tail sees it: a list
of operand keys and a list of result keys.  Operations with dedicated
visitors (connect-like, RegReset, RefSend, RefResolve, Node, Reg) never reach
this path. -/
structure GenOp where
  operands : List Key
  results : List Key
  deriving DecidableEq, Repr

/-- Model of `OpFoldResult`: an attribute (an integer attribute or some
non-integer constant) or a forwarded existing value. -/
inductive FoldResult where
  | attr (a : Attr)
  | nonIntAttr
  | value (k : Key)
  deriving DecidableEq, Repr

/-- The attribute passed to the fold hook for one operand: Constant entries
pass their attribute, anything else passes a null attribute. -/
def operandConstant : LatticeValue → Option Attr
  | .constant a => some a
  | _ => none

/-- Operand collection of `visitOperation` (IMConstProp.cpp:799-816): bail
out (`none`) as soon as an operand's lattice entry is Unknown. -/
def collectOperands (s : PropState) : List Key → Option (List (Option Attr))
  | [] => some []
  | k :: ks =>
    if (s.map k).isUnknown then none
    else match collectOperands s ks with
      | none => none
      | some rest => some (operandConstant (s.map k) :: rest)

/-- The lattice value adopted for one fold result
(IMConstProp.cpp:860-872): an integer attribute becomes Constant, a
non-integer constant becomes Overdefined, and folding to an operand copies
that value's current lattice state. -/
def foldResultLattice (s : PropState) : FoldResult → LatticeValue
  | .attr a => .constant a
  | .nonIntAttr => .overdefined
  | .value k => s.map k

/-- Model of the generic tail of `IMConstPropPass::visitOperation`
(IMConstProp.cpp:771-879): the all-results-Overdefined early exit, operand
collection bailing out on Unknown, the external fold capability, fold
failure marking every result Overdefined, and adoption of each fold result
through `setLatticeValue` (reading the running state, as fold outcomes may
forward other values). -/
def visitOperation (s : PropState) (op : GenOp)
    (fold : List (Option Attr) → Option (List FoldResult)) : PropState :=
  if op.results.all (fun r => (s.map r).isOverdefined) then s
  else match collectOperands s op.operands with
    | none => s
    | some operandConstants =>
      match fold operandConstants with
      | none => op.results.foldl (fun s r => markOverdefinedKey s r) s
      | some foldResults =>
        (op.results.zip foldResults).foldl
          (fun s rf => setLatticeValue s rf.1 (foldResultLattice s rf.2)) s

/-- Destination kinds distinguished by `visitConnectLike`
(IMConstProp.cpp:675-714): a module block argument, the result of a
wire/register, an instance result (with its instance id and result number),
a memory result, or the result of any other operation — the unhandled case. -/
inductive DestKind where
  | blockArg
  | wireOrReg
  | instResult (inst : Nat) (resultNo : Nat)
  | memResult
  | otherOp
  deriving DecidableEq, Repr

/-- The IR context consulted by `visitConnectLike`: value types (`none` for a
foreign, non-FIRRTL type), the destination classification, the
`resultPortToInstanceResultMapping` entries of each block argument, the
module referenced by each instance (`none` for an extmodule), and each
module's block-argument value for a port index. -/
structure CPCtx where
  typeOf : Nat → Option FType
  destKind : Nat → DestKind
  resultPortMap : Nat → List Nat
  instModule : Nat → Option Nat
  moduleArg : Nat → Nat → Nat

/-- `markOverdefined(Value)` on a value whose type may be foreign: a foreign
value is treated as a single opaque leaf. -/
def markOverdefinedValueOpt (ctx : CPCtx) (s : PropState) (v : Nat) :
    PropState :=
  match ctx.typeOf v with
  | some t => markOverdefinedValue s v t
  | none => markOverdefinedKey s (getFieldRefFromValue v)

/-- Model of the `propagateElementLattice` lambda of `visitConnectLike`
(IMConstProp.cpp:662-715), applied to one ground leaf of the destination
type: width-extend the source leaf, return early on Unknown, then route by
destination kind — block arguments also forward to every instance result
mapped to the port, wires/registers merge into their own entry, instance
results additionally forward into the callee's block argument, memory
results are ignored, and any other destination emits the "connectlike
operation unhandled by IMConstProp" diagnostic. -/
def propagateElementLattice (ctx : CPCtx) (dest src : Nat) (s : PropState)
    (fid : Nat) (destTypeLeaf : FType) : PropState :=
  let destType := destTypeLeaf.getPassiveType
  let fieldRefDestConnected := getSubField (getFieldRefFromValue dest) fid
  -- Handle implicit extensions.
  let srcValue := getExtendedLatticeValue s.map
    (getSubField (getFieldRefFromValue src) fid) destType false
  if srcValue.isUnknown then s
  else match ctx.destKind dest with
    | .blockArg =>
      -- Driving result ports propagates the value to each instance using
      -- the module; output ports are wire-like and may have users.
      let s := (ctx.resultPortMap dest).foldl
        (fun s u => mergeLatticeValue s (u, fieldRefDestConnected.2) srcValue) s
      mergeLatticeValue s fieldRefDestConnected srcValue
    | .wireOrReg =>
      mergeLatticeValue s fieldRefDestConnected srcValue
    | .instResult inst resultNo =>
      -- Update the dest, then the corresponding argument of the module.
      let s := mergeLatticeValue s fieldRefDestConnected srcValue
      match ctx.instModule inst with
      | none => s
      | some m =>
        mergeLatticeValue s (ctx.moduleArg m resultNo, fieldRefDestConnected.2)
          srcValue
    | .memResult => s
    | .otherOp => { s with diags := s.diags ++ [dest] }

/-- Model of `IMConstPropPass::visitConnectLike` (IMConstProp.cpp:646-718):
a foreign-typed destination marks source then destination Overdefined
(without a diagnostic); otherwise each ground leaf of the destination's base
type is handled by `propagateElementLattice`. -/
def visitConnectLike (ctx : CPCtx) (s : PropState) (dest src : Nat) :
    PropState :=
  match ctx.typeOf dest with
  | none => markOverdefinedValueOpt ctx (markOverdefinedValueOpt ctx s src) dest
  | some baseType =>
    (foreachFIRRTLGroundType baseType).foldl
      (fun s p => propagateElementLattice ctx dest src s p.1 p.2) s

/-- Operations of the rewrite-phase module-body model
(`rewriteModuleBody`, IMConstProp.cpp:881-1007): wires and registers (with a
precomputed deletability flag summarising `isDeletableWireOrRegOrNode`),
connect-like operations, constants and invalid values. -/
inductive ROp where
  | wire (res : Nat) (t : FType) (deletable : Bool)
  | reg (res : Nat) (t : FType) (deletable : Bool)
  | connect (dest src : Nat)
  | constOp (res : Nat) (a : Attr) (t : FType)
  | invalidOp (res : Nat) (t : FType)
  deriving DecidableEq, Repr

/-- `isDeletableWireOrRegOrNode` (IMConstProp.cpp:44-47): the deletability
flag of a wire/register (no annotations, no do-not-touch, droppable name);
false for everything else. -/
def ROp.isDeletableWireOrRegOrNode : ROp → Bool
  | .wire _ _ d => d
  | .reg _ _ d => d
  | _ => false

/-- `mlir::wouldOpBeTriviallyDead` on the model: constants and invalid
values are pure value producers; declarations and connects are not. -/
def ROp.wouldBeTriviallyDead : ROp → Bool
  | .constOp _ _ _ => true
  | .invalidOp _ _ => true
  | _ => false

/-- The result value of an operation (connects have none). -/
def ROp.resultOf : ROp → Option Nat
  | .wire r _ _ => some r
  | .reg r _ _ => some r
  | .connect _ _ => none
  | .constOp r _ _ => some r
  | .invalidOp r _ => some r

/-- The type of an operation's result. -/
def ROp.resultType : ROp → Option FType
  | .wire _ t _ => some t
  | .reg _ t _ => some t
  | .connect _ _ => none
  | .constOp _ _ t => some t
  | .invalidOp _ t => some t

/-- Rewrite one use of a value, leaving the destination operand (operand 0)
of connect-like operations alone — the `replaceIfNotConnect` lambda
(IMConstProp.cpp:915-920). -/
def replaceInOp (value repl : Nat) : ROp → ROp
  | .connect d s => .connect d (if s = value then repl else s)
  | op => op

def replaceUses (value repl : Nat) (ops : List ROp) : List ROp :=
  ops.map (replaceInOp value repl)

/-- Whether the value occurs as an operand (connect destination or source)
in the list — the model of `Value::use_empty` checks. -/
def usedIn (v : Nat) (ops : List ROp) : Bool :=
  ops.any (fun op => match op with
    | .connect d s => decide (d = v) || decide (s = v)
    | _ => false)

/-- State of the rewrite walk: the already-processed suffix of the body (in
block order), the constant pool keyed by (attribute, type), the materialized
pool constants for the top of the body, and the next fresh value id. -/
structure RWState where
  done : List ROp
  pool : List (Attr × FType × Nat)
  poolOps : List ROp
  nextId : Nat
  deriving DecidableEq, Repr

/-- The constant-pool `getConst` lambda (IMConstProp.cpp:891-907): reuse the
materialized constant for a (value, type) pair or create one at the top of
the body. -/
def getConst (st : RWState) (a : Attr) (t : FType) : Nat × RWState :=
  match st.pool.find? (fun e => decide (e.1 = a) && decide (e.2.1 = t)) with
  | some e => (e.2.2, st)
  | none =>
    (st.nextId,
     { st with pool := (a, t, st.nextId) :: st.pool,
               poolOps := ROp.constOp st.nextId a t :: st.poolOps,
               nextId := st.nextId + 1 })

/-- Model of the `replaceValueIfPossible` lambda (IMConstProp.cpp:911-947):
an Overdefined or Unknown entry is left alone; an Unwritten entry is
replaced by a freshly created InvalidValue only when the value is defined by
a register (anything else returns false); a Constant entry replaces every
use except connect destinations with the pooled constant (every model type
is a base type).  Returns the folded flag, the operations created at the
insertion point, the rewritten unprocessed part of the body, and the updated
state. -/
def replaceValueIfPossible (lattice : Key → LatticeValue)
    (revPending : List ROp) (st : RWState) (defOp : Option ROp) (value : Nat)
    (ty : FType) : Bool × List ROp × List ROp × RWState :=
  match lattice (getFieldRefFromValue value) with
  | .overdefined => (false, [], revPending, st)
  | .unknown => (false, [], revPending, st)
  | .unwritten =>
    match defOp with
    | some (ROp.reg _ t _) =>
      -- Registers can get replaced with a unique (new) invalid value.
      (true, [ROp.invalidOp st.nextId t],
       replaceUses value st.nextId revPending,
       { st with done := replaceUses value st.nextId st.done,
                 nextId := st.nextId + 1 })
    | _ => (false, [], revPending, st)
  | .constant a =>
    let r := getConst st a ty
    (true, [], replaceUses value r.1 revPending,
     { r.2 with done := replaceUses value r.1 r.2.done })

/-- Model of the bottom-up walk of `rewriteModuleBody`
(IMConstProp.cpp:959-1006); `rev` lists the remaining operations last-first.
A connect into a deletable wire/register whose destination entry is not
Overdefined is erased; an operation with no remaining uses that is trivially
dead or a deletable declaration is erased; constants and invalid values are
not refolded; every other single-result operation gets its result
constant-replaced and is erased when that made it dead. -/
def rewriteLoop (lattice : Key → LatticeValue) :
    Nat → List ROp → RWState → RWState
  | 0, _, st => st
  | _, [], st => st
  | fuel + 1, op :: rev, st =>
    match op with
    | ROp.connect d s =>
      -- Connects to values that we found to be constant can be dropped.
      match (rev ++ st.done ++ st.poolOps).find?
          (fun o => decide (o.resultOf = some d)) with
      | some dop =>
        if dop.isDeletableWireOrRegOrNode &&
            !(lattice (getFieldRefFromValue d)).isOverdefined then
          rewriteLoop lattice fuel rev st
        else
          rewriteLoop lattice fuel rev
            { st with done := ROp.connect d s :: st.done }
      | none =>
        rewriteLoop lattice fuel rev
          { st with done := ROp.connect d s :: st.done }
    | _ =>
      match op.resultOf, op.resultType with
      | some res, some ty =>
        -- If this operation is already dead, then remove it.
        if !(usedIn res rev || usedIn res st.done) &&
            (op.wouldBeTriviallyDead || op.isDeletableWireOrRegOrNode) then
          rewriteLoop lattice fuel rev st
        else if (match op with
            | ROp.constOp _ _ _ => true
            | ROp.invalidOp _ _ => true
            | _ => false) then
          -- Don't "refold" constants.
          rewriteLoop lattice fuel rev { st with done := op :: st.done }
        else
          match replaceValueIfPossible lattice rev st (some op) res ty with
          | (folded, newOps, rev2, st2) =>
            if folded && !(usedIn res rev2 || usedIn res st2.done) &&
                (op.wouldBeTriviallyDead || op.isDeletableWireOrRegOrNode) then
              rewriteLoop lattice fuel rev2
                { st2 with done := newOps ++ st2.done }
            else
              rewriteLoop lattice fuel rev2
                { st2 with done := newOps ++ op :: st2.done }
      | _, _ =>
        rewriteLoop lattice fuel rev { st with done := op :: st.done }

/-- Model of `IMConstPropPass::rewriteModuleBody` (IMConstProp.cpp:881-1007)
on one module body: constant-propagate the ports, then walk the body
bottom-up; the materialized constant pool sits at the top of the returned
body.  `firstFreshId` seeds fresh value ids for created operations. -/
def rewriteModuleBody (lattice : Key → LatticeValue)
    (ports : List (Nat × FType)) (body : List ROp) (firstFreshId : Nat) :
    List ROp :=
  let st0 : RWState := ⟨[], [], [], firstFreshId⟩
  -- Constant propagate any ports that are always constant.
  let seeded := ports.foldl
    (fun (acc : List ROp × RWState) p =>
      match replaceValueIfPossible lattice acc.1 acc.2 none p.1 p.2 with
      | (_, _, rev2, st2) => (rev2, st2))
    (body.reverse, st0)
  let stF := rewriteLoop lattice (seeded.1.length + 1) seeded.1 seeded.2
  stF.poolOps ++ stF.done

/-- The number of InvalidValue operations in a body. -/
def countInvalids (ops : List ROp) : Nat :=
  ops.countP (fun op => match op with
    | ROp.invalidOp _ _ => true
    | _ => false)

/-- Context of the unconnected-wire example module: value 0 is the module's
output port (a block argument), value 1 the wire; every value has the same
ground type. -/
def exC9Ctx (w : Int) (sg : Bool) : CPCtx :=
  ⟨fun _ => some (FType.ground w sg),
   fun v => if v = 0 then DestKind.blockArg else DestKind.wireOrReg,
   fun _ => [], fun _ => none, fun _ _ => 0⟩

/-- The lattice the analysis computes on the example module
`[wire 1, connect 0 ← 1]`: the executable-block scan handles the wire
(`markWireOrRegOp`), then the connect is visited. -/
def exC9Lattice (w : Int) (sg : Bool) : Key → LatticeValue :=
  (visitConnectLike (exC9Ctx w sg)
    (markWireOrRegOp PropState.init ⟨1, FType.ground w sg, false⟩) 0 1).map

end IMCP

namespace IMDCE

/-- Port direction (`Direction::In` / `Direction::Out`). -/
inductive Dir where
  | inp
  | out
  deriving DecidableEq, Repr

/-- Classification of an SSA value as `visitValue` dispatches on it
(IMDeadCodeElim.cpp:355-408): a module block argument, an instance result,
a memory result, or the result of some other defining operation. -/
inductive VKind where
  | blockArg (mod argNo : Nat)
  | instResult (inst resultNo : Nat)
  | memResult (mem : Nat)
  | opResult (op : Nat)
  deriving DecidableEq, Repr

/-- A user operation of a value, as `visitUser` dispatches on it
(IMDeadCodeElim.cpp:164-170): a connect-like operation, an aggregate
subelement access, or anything else (ignored by `visitUser`). -/
inductive DOp where
  | connect (dest src : Nat)
  | subelem (operand result : Nat)
  | otherUser
  deriving DecidableEq, Repr

/-- The IR context consulted by the liveness fixpoint: value classification,
value users, port directions per module, the
`resultPortToInstanceResultMapping` of each block-argument value, the module
referenced by each instance (`none` for an extmodule), each module's
block-argument value per port index, the ports of each memory, and the
operands of each generic defining operation. -/
structure DCECtx where
  valueKind : Nat → VKind
  users : Nat → List DOp
  portDir : Nat → Nat → Dir
  r2i : Nat → List Nat
  instModule : Nat → Option Nat
  moduleArg : Nat → Nat → Nat
  memPorts : Nat → List Nat
  defOperands : Nat → List Nat

/-- Analysis state of `IMDeadCodeElimPass` restricted to value liveness:
`liveValues`, `liveInstances`, the `lazyLiveInputPorts` map, and the
`valueWorklist`. -/
structure DCEState where
  liveValues : List Nat
  liveInstances : List Nat
  lazyLiveInputPorts : Nat → List Nat
  valueWorklist : List Nat

def initState : DCEState := ⟨[], [], fun _ => [], []⟩

/-- Model of `IMDeadCodeElimPass::markAlive(Value)`
(IMDeadCodeElim.cpp:62-66): insert and queue the value unless already live. -/
def markAliveValue (s : DCEState) (v : Nat) : DCEState :=
  if v ∈ s.liveValues then s
  else { s with liveValues := v :: s.liveValues,
                valueWorklist := v :: s.valueWorklist }

/-- Model of `IMDeadCodeElimPass::markAlive(InstanceOp)`
(IMDeadCodeElim.cpp:57-60): inserts into `liveInstances`; it does not flush
`lazyLiveInputPorts`.  (Block undeletability is not tracked here.) -/
def markAliveInstance (s : DCEState) (i : Nat) : DCEState :=
  if i ∈ s.liveInstances then s
  else { s with liveInstances := i :: s.liveInstances }

/-- Model of `IMDeadCodeElimPass::visitUser` with `visitConnect` and
`visitSubelement` (IMDeadCodeElim.cpp:164-170, 411-420). -/
def visitUser (s : DCEState) (op : DOp) : DCEState :=
  match op with
  | .connect dest src =>
      -- If the dest is alive, mark the source value as alive.
      if dest ∈ s.liveValues then markAliveValue s src else s
  | .subelem operand result =>
      if operand ∈ s.liveValues then markAliveValue s result else s
  | .otherUser => s

/-- `getDefiningOp<InstanceOp>` on a value. -/
def definingInstance (ctx : DCECtx) (v : Nat) : Option Nat :=
  match ctx.valueKind v with
  | .instResult i _ => some i
  | _ => none

/-- One step of the input-port propagation loop of `visitValue`
(IMDeadCodeElim.cpp:362-369): an instance result whose owning instance is
already alive is marked alive; otherwise it is queued in that instance's
`lazyLiveInputPorts` list. -/
def propagateToInstanceInput (ctx : DCECtx) (s : DCEState) (r : Nat) :
    DCEState :=
  match definingInstance ctx r with
  | some i =>
    if i ∈ s.liveInstances then markAliveValue s r
    else { s with lazyLiveInputPorts :=
             fun j => if j = i then s.lazyLiveInputPorts i ++ [r]
                      else s.lazyLiveInputPorts j }
  | none => s

/-- The dispatch part of `IMDeadCodeElimPass::visitValue`
(IMDeadCodeElim.cpp:355-408), run after user propagation: an alive input
port of a module propagates to each instance's matching result — queued in
`lazyLiveInputPorts` when the owning instance is not yet alive; an alive
instance result bound to an output port inserts the instance into
`liveInstances` (flushing every pending input port accumulated so far) and
marks the callee's block argument; an alive memory port marks all ports of
the memory; any other defined value marks its defining operation's operands. -/
def visitValueDispatch (ctx : DCECtx) (s : DCEState) (value : Nat) : DCEState :=
  match ctx.valueKind value with
  | .blockArg m argNo =>
    if ctx.portDir m argNo = Dir.inp then
      (ctx.r2i value).foldl (propagateToInstanceInput ctx) s
    else s
  | .instResult i resultNo =>
    match ctx.instModule i with
    | none => s
    | some m =>
      -- Propagate liveness only when the port is an output.
      if ctx.portDir m resultNo = Dir.inp then s
      else
        let s :=
          if i ∈ s.liveInstances then s
          else
            -- Newly alive: flush the pending input ports accumulated so far.
            let s1 := { s with liveInstances := i :: s.liveInstances }
            (s1.lazyLiveInputPorts i).foldl markAliveValue s1
        markAliveValue s (ctx.moduleArg m resultNo)
  | .memResult mem =>
      -- If a port of a memory is alive, all other ports are.
      (ctx.memPorts mem).foldl markAliveValue s
  | .opResult op =>
      (ctx.defOperands op).foldl markAliveValue s

/-- Model of `IMDeadCodeElimPass::visitValue` (IMDeadCodeElim.cpp:347-409):
propagate liveness through the value's users, then dispatch on the value's
classification. -/
def visitValue (ctx : DCECtx) (s : DCEState) (value : Nat) : DCEState :=
  visitValueDispatch ctx ((ctx.users value).foldl visitUser s) value

/-- The value-liveness worklist loop of `runOnOperation`
(IMDeadCodeElim.cpp:322-332), with explicit fuel. -/
def runWorklist (ctx : DCECtx) : Nat → DCEState → DCEState
  | 0, s => s
  | fuel + 1, s =>
    match s.valueWorklist with
    | [] => s
    | v :: rest =>
        runWorklist ctx fuel (visitValue ctx { s with valueWorklist := rest } v)

/-- One seeding action of the pre-fixpoint phase: `markAlive` on a value
(public ports, do-not-touch declarations, operands and results of
unknown-side-effect operations, extmodule instance ports) or `markAlive` on
an instance (extmodule instances, instances of undeletable callees,
symbol-referenced instances), as performed by `markBlockExecutable` and its
helpers before the worklist is drained.  Seeding never touches
`lazyLiveInputPorts`. -/
inductive SeedAction where
  | value (v : Nat)
  | inst (i : Nat)
  deriving DecidableEq, Repr

/-- The state after the seeding phase: fold the seeding actions over the
fresh per-run state. -/
def seedState (actions : List SeedAction) : DCEState :=
  actions.foldl
    (fun s a => match a with
      | .value v => markAliveValue s v
      | .inst i => markAliveInstance s i)
    initState

/-- The lazy-flush property: every pending input port queued for an alive
instance has been marked alive. -/
def PendingAlive (s : DCEState) : Prop :=
  ∀ i ∈ s.liveInstances, ∀ p ∈ s.lazyLiveInputPorts i, p ∈ s.liveValues

/-- A concrete liveness context for instantiating the fixpoint lemmas:
module 0 has input port 0 (block-argument value 10) and output port 1;
instance 5 of module 0 binds result 20 to the input port and result 21 to
the output port. -/
def exCtx : DCECtx :=
  ⟨fun v => if v = 10 then VKind.blockArg 0 0
     else if v = 20 then VKind.instResult 5 0
     else if v = 21 then VKind.instResult 5 1
     else VKind.opResult 0,
   fun _ => [],
   fun _ p => if p = 0 then Dir.inp else Dir.out,
   fun v => if v = 10 then [20] else [],
   fun _ => some 0,
   fun _ _ => 10,
   fun _ => [],
   fun _ => []⟩

/-- The observable phases of `IMDeadCodeElimPass::runOnOperation`
(IMDeadCodeElim.cpp:292-345), tagged per module where applicable: the
constant-output forwarding prepass, the public-port seeding, the worklist
fixpoint, the per-module signature rewrite (port pruning, dead-instance
erasure, instance-graph mutation), the per-module body rewrite, and the
per-module empty-module erasure (also instance-graph mutation). -/
inductive DriverEvent where
  | forwardConstantOutputPort (mod : Nat)
  | seedPublic (mod : Nat)
  | fixpointDone
  | rewriteModuleSignature (mod : Nat)
  | rewriteModuleBody (mod : Nat)
  | eraseEmptyModule (mod : Nat)
  deriving DecidableEq, Repr

/-- Model of the phase order of `IMDeadCodeElimPass::runOnOperation`
(IMDeadCodeElim.cpp:292-345): forward constant output ports over the
post-order module list (lines 310-311), seed public modules (313-320), drain
the worklists (322-332), then rewrite every module signature sequentially
(334-336), rewrite module bodies in parallel (338-341; `parallelForEach`
joins before returning), and erase empty modules (343-344).  `modules` is
the circuit's module list. -/
def runOnOperationTrace (modules : List Nat) : List DriverEvent :=
  modules.map DriverEvent.forwardConstantOutputPort ++
  (modules.map DriverEvent.seedPublic ++
  ([DriverEvent.fixpointDone] ++
  (modules.map DriverEvent.rewriteModuleSignature ++
  (modules.map DriverEvent.rewriteModuleBody ++
  modules.map DriverEvent.eraseEmptyModule))))

/-- The rank of each driver phase in execution order. -/
def DriverEvent.phase : DriverEvent → Nat
  | .forwardConstantOutputPort _ => 0
  | .seedPublic _ => 1
  | .fixpointDone => 2
  | .rewriteModuleSignature _ => 3
  | .rewriteModuleBody _ => 4
  | .eraseEmptyModule _ => 5

end IMDCE

/-- C1: `LatticeValue::mergeIn` computes the join of the 4-state lattice:
merging into an Overdefined target or merging an Unknown source changes
nothing; merging any source into an Unknown target adopts the source state;
an Unwritten source is absorbed by a Constant or Overdefined target and never
regresses it; two different Constants merge to Overdefined while equal
Constants change nothing; and the resulting state is independent of which
operand is target and which is source. -/
theorem C1_mergeIn_is_lattice_join :
    (∀ a : IMCP.LatticeValue, IMCP.LatticeValue.overdefined.mergeIn a =
      (IMCP.LatticeValue.overdefined, false)) ∧
    (∀ a : IMCP.LatticeValue, a.mergeIn IMCP.LatticeValue.unknown = (a, false)) ∧
    (∀ a : IMCP.LatticeValue, (IMCP.LatticeValue.unknown.mergeIn a).1 = a) ∧
    (∀ v : IMCP.Attr,
      (IMCP.LatticeValue.constant v).mergeIn IMCP.LatticeValue.unwritten =
        (IMCP.LatticeValue.constant v, false)) ∧
    (IMCP.LatticeValue.overdefined.mergeIn IMCP.LatticeValue.unwritten =
      (IMCP.LatticeValue.overdefined, false)) ∧
    (∀ v w : IMCP.Attr, v ≠ w →
      (IMCP.LatticeValue.constant v).mergeIn (IMCP.LatticeValue.constant w) =
        (IMCP.LatticeValue.overdefined, true)) ∧
    (∀ v : IMCP.Attr,
      (IMCP.LatticeValue.constant v).mergeIn (IMCP.LatticeValue.constant v) =
        (IMCP.LatticeValue.constant v, false)) ∧
    (∀ a b : IMCP.LatticeValue, (a.mergeIn b).1 = (b.mergeIn a).1) := by
  refine ⟨?_, ?_, ?_, ?_, ?_, ?_, ?_, ?_⟩
  · intro a; cases a <;> rfl
  · intro a; cases a <;> rfl
  · intro a; cases a <;> rfl
  · intro v; rfl
  · rfl
  · intro v w hvw
    simp [IMCP.LatticeValue.mergeIn, IMCP.LatticeValue.isOverdefined,
      IMCP.LatticeValue.isUnknown, IMCP.LatticeValue.isUnwritten, hvw]
  · intro v
    simp [IMCP.LatticeValue.mergeIn, IMCP.LatticeValue.isOverdefined,
      IMCP.LatticeValue.isUnknown, IMCP.LatticeValue.isUnwritten]
  · intro a b
    cases a <;> cases b <;>
      simp only [IMCP.LatticeValue.mergeIn, IMCP.LatticeValue.isOverdefined,
        IMCP.LatticeValue.isUnknown, IMCP.LatticeValue.isUnwritten,
        Bool.false_or, Bool.true_or, Bool.or_false, Bool.or_true,
        if_true, if_false, ite_true, ite_false, Bool.false_eq_true,
        ne_eq, reduceCtorEq, not_false_eq_true] <;> try rfl
    rename_i v w
    by_cases h : v = w
    · simp [h]
    · simp [h, Ne.symm h]

/-- Witness for C1: the constant-vs-constant clause applied at the concrete
8-bit constants 3 and 4. -/
theorem C1_mergeIn_is_lattice_join_witness :
    (IMCP.Attr.int ⟨8, false, 3⟩ ≠ IMCP.Attr.int ⟨8, false, 4⟩) ∧
    (IMCP.LatticeValue.constant (IMCP.Attr.int ⟨8, false, 3⟩)).mergeIn
        (IMCP.LatticeValue.constant (IMCP.Attr.int ⟨8, false, 4⟩)) =
      (IMCP.LatticeValue.overdefined, true) :=
  ⟨by decide,
   C1_mergeIn_is_lattice_join.2.2.2.2.2.1 _ _ (by decide)⟩

open IMCP

/-- Helper: `markOverdefined(Key)` leaves the entry at `k` Overdefined. -/
theorem markOverdefinedKey_map_self (s : PropState) (k : Key) :
    (markOverdefinedKey s k).map k = LatticeValue.overdefined := by
  unfold markOverdefinedKey
  cases hv : s.map k <;>
    simp [hv, LatticeValue.isOverdefined, updateMap]

/-- C2 (code bug): during the initial scan of an executable block, a
wire/register whose result type is ground and that carries no do-not-touch
marker has its lattice entry initialized to Overdefined, not Unwritten:
`markWireOrRegOp` reaches `markUnwritten(Value)`, whose body calls
`markOverdefined` on every ground leaf. -/
theorem C2_ground_wire_initialized_overdefined :
    ∀ (s : PropState) (v : Nat) (w : Int) (sg : Bool),
      (markWireOrRegOp s ⟨v, .ground w sg, false⟩).map (v, 0) =
          LatticeValue.overdefined ∧
        (markWireOrRegOp s ⟨v, .ground w sg, false⟩).map (v, 0) ≠
          LatticeValue.unwritten := by
  intro s v w sg
  have h : (markWireOrRegOp s ⟨v, .ground w sg, false⟩).map (v, 0) =
      LatticeValue.overdefined := by
    show (markUnwrittenValue s v (.ground w sg)).map (v, 0) = _
    unfold markUnwrittenValue foreachFIRRTLGroundType
    simp only [FType.isGround, if_true, List.foldl]
    exact markOverdefinedKey_map_self s (v, 0)
  exact ⟨h, by rw [h]; exact fun hc => LatticeValue.noConfusion hc⟩

/-- `toInt` of an explicit attribute literal, unfolded. -/
theorem toInt_mk (w : Nat) (sg : Bool) (b : Nat) :
    IntegerAttrM.toInt ⟨w, sg, b⟩ =
      if sg = true ∧ 2 ^ (w - 1) ≤ b then (b : Int) - ((2 ^ w : Nat) : Int)
      else (b : Int) := rfl

/-- Helper: resizing an `APSInt` to an equal or wider width preserves its
numeric value, the requested width, and the source's signedness. -/
theorem extOrTruncZeroWidth_spec (a : IntegerAttrM) (w' : Nat)
    (hwf : a.wf) (hle : a.width ≤ w') :
    (extOrTruncZeroWidth a w').toInt = a.toInt ∧
    (extOrTruncZeroWidth a w').width = w' ∧
    (extOrTruncZeroWidth a w').signed = a.signed := by
  obtain ⟨w, sg, bits⟩ := a
  change bits < 2 ^ w at hwf
  change w ≤ w' at hle
  by_cases h0 : w = 0
  · subst h0
    have hb : bits = 0 := by simpa using hwf
    subst hb
    have h1 : (1 : Nat) ≤ 2 ^ (w' - 1) := Nat.one_le_two_pow
    refine ⟨?_, rfl, rfl⟩
    show IntegerAttrM.toInt ⟨w', sg, 0⟩ = IntegerAttrM.toInt ⟨0, sg, 0⟩
    rw [toInt_mk, toInt_mk, if_neg, if_neg]
    · intro hc; omega
    · intro hc; omega
  · have hw1 : 1 ≤ w := Nat.one_le_iff_ne_zero.mpr h0
    have hw'1 : 1 ≤ w' := le_trans hw1 hle
    have hHH : (2 : Nat) ^ (w - 1) ≤ 2 ^ (w' - 1) :=
      Nat.pow_le_pow_right (by norm_num) (by omega)
    have hPP : (2 : Nat) ^ w ≤ 2 ^ w' := Nat.pow_le_pow_right (by norm_num) hle
    have h2H : (2 : Nat) ^ w = 2 * 2 ^ (w - 1) := by
      conv_lhs => rw [show w = w - 1 + 1 by omega]
      rw [pow_succ]; ring
    have h2H' : (2 : Nat) ^ w' = 2 * 2 ^ (w' - 1) := by
      conv_lhs => rw [show w' = w' - 1 + 1 by omega]
      rw [pow_succ]; ring
    have iHH : ((2 : Int) ^ (w - 1)) ≤ (2 : Int) ^ (w' - 1) := by exact_mod_cast hHH
    have iPP : ((2 : Int) ^ w) ≤ (2 : Int) ^ w' := by exact_mod_cast hPP
    have i2H : (2 : Int) ^ w = 2 * (2 : Int) ^ (w - 1) := by exact_mod_cast h2H
    have i2H' : (2 : Int) ^ w' = 2 * (2 : Int) ^ (w' - 1) := by exact_mod_cast h2H'
    have iwf : (bits : Int) < (2 : Int) ^ w := by exact_mod_cast hwf
    have iH1 : (1 : Int) ≤ (2 : Int) ^ (w - 1) := by
      exact_mod_cast (Nat.one_le_two_pow : (1 : Nat) ≤ 2 ^ (w - 1))
    have hred : extOrTruncZeroWidth ⟨w, sg, bits⟩ w' =
        ⟨w', sg, ((IntegerAttrM.toInt ⟨w, sg, bits⟩).emod ((2 : Int) ^ w')).toNat⟩ := by
      unfold extOrTruncZeroWidth
      rw [if_neg h0, if_pos hle]
    rw [hred]
    refine ⟨?_, rfl, rfl⟩
    by_cases hs : sg = true
    · by_cases hbig : 2 ^ (w - 1) ≤ bits
      · -- negative two's-complement value: sign extension
        have ibig : ((2 : Int) ^ (w - 1)) ≤ (bits : Int) := by exact_mod_cast hbig
        have hT : IntegerAttrM.toInt ⟨w, sg, bits⟩ = (bits : Int) - (2 : Int) ^ w := by
          rw [toInt_mk, if_pos ⟨hs, hbig⟩]; push_cast; ring
        rw [hT]
        have hmod : ((bits : Int) - (2 : Int) ^ w).emod ((2 : Int) ^ w') =
            (bits : Int) - (2 : Int) ^ w + (2 : Int) ^ w' := by
          have e1 : ((bits : Int) - (2 : Int) ^ w).emod ((2 : Int) ^ w') =
              ((bits : Int) - (2 : Int) ^ w + (2 : Int) ^ w').emod ((2 : Int) ^ w') :=
            (Int.add_emod_self).symm
          rw [e1]
          exact Int.emod_eq_of_lt (by omega) (by omega)
        rw [hmod, toInt_mk]
        have hbits : ((((bits : Int) - (2 : Int) ^ w + (2 : Int) ^ w').toNat : Nat) : Int) =
            (bits : Int) - (2 : Int) ^ w + (2 : Int) ^ w' :=
          Int.toNat_of_nonneg (by omega)
        rw [if_pos]
        · push_cast
          omega
        · refine ⟨hs, ?_⟩
          rw [Int.le_toNat (by omega)]
          push_cast
          omega
      · -- nonnegative signed value: below 2 ^ (width - 1)
        have hbigN : bits < 2 ^ (w - 1) := Nat.lt_of_not_le hbig
        have hT : IntegerAttrM.toInt ⟨w, sg, bits⟩ = (bits : Int) := by
          rw [toInt_mk, if_neg]; intro hc; exact hbig hc.2
        rw [hT]
        have hmod : ((bits : Int)).emod ((2 : Int) ^ w') = (bits : Int) :=
          Int.emod_eq_of_lt (Int.natCast_nonneg bits) (by omega)
        rw [hmod, toInt_mk, if_neg]
        · simp
        · intro hc
          have h2 := hc.2
          simp only [Int.toNat_natCast] at h2
          omega
    · -- unsigned: plain zero extension
      have hT : IntegerAttrM.toInt ⟨w, sg, bits⟩ = (bits : Int) := by
        rw [toInt_mk, if_neg]; intro hc; exact hs hc.1
      rw [hT]
      have hmod : ((bits : Int)).emod ((2 : Int) ^ w') = (bits : Int) :=
        Int.emod_eq_of_lt (Int.natCast_nonneg bits) (by omega)
      rw [hmod, toInt_mk, if_neg]
      · simp
      · intro hc; exact hs hc.1

/-- C4 (code bug): a Constant integer entry narrower than the known
destination width is extended under the source's signedness, preserving its
numeric value; but when the source is wider than the destination,
`getExtendedLatticeValue` truncates even though the caller passed
`allowTruncation = false` — the parameter is never read. -/
theorem C4_extension_preserves_value_truncation_ignores_flag :
    (∀ (m : Key → LatticeValue) (k : Key) (a : IntegerAttrM) (dw : Nat)
        (sg b : Bool),
      m k = LatticeValue.constant (Attr.int a) → a.wf → a.width < dw →
      ∃ a' : IntegerAttrM,
        getExtendedLatticeValue m k (FType.ground dw sg) b =
            LatticeValue.constant (Attr.int a') ∧
          a'.width = dw ∧ a'.signed = a.signed ∧ a'.toInt = a.toInt) ∧
    getExtendedLatticeValue
        (updateMap (fun _ => LatticeValue.unknown) (5, 0)
          (LatticeValue.constant (Attr.int ⟨8, false, 255⟩)))
        (5, 0) (FType.ground 4 false) false =
      LatticeValue.constant (Attr.int ⟨4, false, 15⟩) := by
  constructor
  · intro m k a dw sg b hm hwf hlt
    refine ⟨extOrTruncZeroWidth a dw, ?_, ?_, ?_, ?_⟩
    · unfold getExtendedLatticeValue
      rw [hm]
      simp only [FType.getBitWidthOrSentinel]
      rw [if_neg (by omega), if_neg (by omega)]
      simp
    · exact (extOrTruncZeroWidth_spec a dw hwf (le_of_lt hlt)).2.1
    · exact (extOrTruncZeroWidth_spec a dw hwf (le_of_lt hlt)).2.2
    · exact (extOrTruncZeroWidth_spec a dw hwf (le_of_lt hlt)).1
  · rfl

/-- Witness for C4: the extension clause applied to the signed 4-bit constant
−4 (bit pattern 12) extended to 8 bits. -/
theorem C4_extension_preserves_value_truncation_ignores_flag_witness :
    ((updateMap (fun _ => LatticeValue.unknown) (1, 0)
        (LatticeValue.constant (Attr.int ⟨4, true, 12⟩))) (1, 0) =
      LatticeValue.constant (Attr.int ⟨4, true, 12⟩)) ∧
    (IntegerAttrM.wf ⟨4, true, 12⟩) ∧ (4 < 8) ∧
    ∃ a' : IntegerAttrM,
      getExtendedLatticeValue
          (updateMap (fun _ => LatticeValue.unknown) (1, 0)
            (LatticeValue.constant (Attr.int ⟨4, true, 12⟩)))
          (1, 0) (FType.ground 8 true) false =
          LatticeValue.constant (Attr.int a') ∧
        a'.width = 8 ∧ a'.signed = true ∧
        a'.toInt = IntegerAttrM.toInt ⟨4, true, 12⟩ :=
  ⟨rfl, by decide, by decide,
   C4_extension_preserves_value_truncation_ignores_flag.1
     (updateMap (fun _ => LatticeValue.unknown) (1, 0)
       (LatticeValue.constant (Attr.int ⟨4, true, 12⟩)))
     (1, 0) ⟨4, true, 12⟩ 8 true false rfl (by decide) (by decide)⟩

/-- C10: when the destination type has unknown bit width
(`getBitWidthOrSentinel() == -1`), `getExtendedLatticeValue` collapses a
Constant entry holding a (non-boolean) integer value to Overdefined. -/
theorem C10_unknown_width_collapses_to_overdefined :
    ∀ (m : Key → LatticeValue) (k : Key) (a : IntegerAttrM) (sg b : Bool),
      m k = LatticeValue.constant (Attr.int a) →
      getExtendedLatticeValue m k (FType.ground (-1) sg) b =
        LatticeValue.overdefined := by
  intro m k a sg b h
  unfold getExtendedLatticeValue
  rw [h]
  simp [FType.getBitWidthOrSentinel]

/-- Witness for C10: a map sending a key to the 8-bit constant 42, queried at
an unknown-width destination type. -/
theorem C10_unknown_width_collapses_to_overdefined_witness :
    ((updateMap (fun _ => LatticeValue.unknown) (7, 0)
        (LatticeValue.constant (Attr.int ⟨8, false, 42⟩))) (7, 0) =
      LatticeValue.constant (Attr.int ⟨8, false, 42⟩)) ∧
    getExtendedLatticeValue
        (updateMap (fun _ => LatticeValue.unknown) (7, 0)
          (LatticeValue.constant (Attr.int ⟨8, false, 42⟩)))
        (7, 0) (FType.ground (-1) false) false =
      LatticeValue.overdefined :=
  ⟨rfl,
   C10_unknown_width_collapses_to_overdefined
     (updateMap (fun _ => LatticeValue.unknown) (7, 0)
       (LatticeValue.constant (Attr.int ⟨8, false, 42⟩)))
     (7, 0) ⟨8, false, 42⟩ false false rfl⟩

/-- Helper: `markOverdefined(Key)` leaves entries at other keys unchanged. -/
theorem markOverdefinedKey_map_ne (s : PropState) (k r : Key) (h : k ≠ r) :
    (markOverdefinedKey s r).map k = s.map k := by
  unfold markOverdefinedKey
  split
  · rfl
  · simp [updateMap, h]

/-- Helper: `setLatticeValue` leaves entries at other keys unchanged. -/
theorem setLatticeValue_map_ne (s : PropState) (k r : Key) (v : LatticeValue)
    (h : k ≠ r) :
    (setLatticeValue s r v).map k = s.map k := by
  unfold setLatticeValue
  split
  · rfl
  · split
    · simp [updateMap, h]
    · rfl

/-- C3 (counterexample): with a two-result operation whose results are not
all Overdefined, `visitOperation` adopts fold results through
`setLatticeValue`, overwriting the Overdefined entry at key (0,0) with a
Constant — a later state update does change an Overdefined entry. -/
theorem C3_overdefined_overwritten_by_fold_counterexample :
    ((updateMap (fun _ => LatticeValue.unknown) (0, 0) LatticeValue.overdefined)
        (0, 0) = LatticeValue.overdefined) ∧
    (visitOperation
        ⟨updateMap (fun _ => LatticeValue.unknown) (0, 0) LatticeValue.overdefined,
         [], []⟩
        ⟨[], [(0, 0), (1, 0)]⟩
        (fun _ => some [FoldResult.attr (Attr.int ⟨1, false, 0⟩),
                        FoldResult.attr (Attr.int ⟨1, false, 1⟩)])).map (0, 0) =
      LatticeValue.constant (Attr.int ⟨1, false, 0⟩) :=
  ⟨rfl, rfl⟩

/-- C3 (amended): once a FieldRef's entry is Overdefined, `mergeLatticeValue`
never changes it; and fold-result adoption through `setLatticeValue` inside
`visitOperation` cannot change it when the operation has at most one result,
because the all-results-Overdefined early exit fires first.  (A multi-result
operation with a non-Overdefined sibling result can overwrite it, as the
counterexample shows.) -/
theorem C3_overdefined_monotone_amended :
    (∀ (s : PropState) (k : Key) (src : LatticeValue),
      s.map k = LatticeValue.overdefined →
      (mergeLatticeValue s k src).map k = LatticeValue.overdefined) ∧
    (∀ (s : PropState) (op : GenOp)
        (fold : List (Option Attr) → Option (List FoldResult)) (k : Key),
      op.results.length ≤ 1 →
      s.map k = LatticeValue.overdefined →
      (visitOperation s op fold).map k = LatticeValue.overdefined) := by
  constructor
  · intro s k src hk
    unfold mergeLatticeValue mergeLatticeValueEntry
    split
    · exact hk
    · simp [hk, LatticeValue.mergeIn, LatticeValue.isOverdefined]
  · intro s op fold k hlen hk
    obtain ⟨ops, res⟩ := op
    cases res with
    | nil => simpa [visitOperation] using hk
    | cons r rest =>
      cases rest with
      | cons r2 rest2 => simp at hlen
      | nil =>
        by_cases hro : (s.map r).isOverdefined = true
        · simpa [visitOperation, hro] using hk
        · have hkr : k ≠ r := by
            intro he; rw [he] at hk; rw [hk] at hro; exact hro rfl
          simp only [visitOperation, List.all_cons, List.all_nil, Bool.and_true]
          rw [if_neg hro]
          cases collectOperands s ops with
          | none => exact hk
          | some oc =>
            show (match fold oc with
              | none => List.foldl (fun s r => markOverdefinedKey s r) s [r]
              | some foldResults =>
                List.foldl
                  (fun (s : PropState) (rf : Key × FoldResult) =>
                    setLatticeValue s rf.1 (foldResultLattice s rf.2))
                  s ([r].zip foldResults)).map k = LatticeValue.overdefined
            cases fold oc with
            | none =>
              show (markOverdefinedKey s r).map k = LatticeValue.overdefined
              rw [markOverdefinedKey_map_ne s k r hkr]
              exact hk
            | some frs =>
              cases frs with
              | nil => exact hk
              | cons fr frs2 =>
                show (setLatticeValue s r (foldResultLattice s fr)).map k =
                  LatticeValue.overdefined
                rw [setLatticeValue_map_ne _ k r _ hkr]
                exact hk

/-- Witness for C3 (amended): both clauses applied at the concrete
Overdefined entry (2,0), with a Constant merge source and a single-result
operation folding to a constant. -/
theorem C3_overdefined_monotone_amended_witness :
    ((⟨updateMap (fun _ => LatticeValue.unknown) (2, 0) LatticeValue.overdefined,
        [], []⟩ : PropState).map (2, 0) = LatticeValue.overdefined) ∧
    ((mergeLatticeValue
        ⟨updateMap (fun _ => LatticeValue.unknown) (2, 0) LatticeValue.overdefined,
         [], []⟩ (2, 0)
        (LatticeValue.constant (Attr.int ⟨8, false, 5⟩))).map (2, 0) =
      LatticeValue.overdefined) ∧
    ((visitOperation
        ⟨updateMap (fun _ => LatticeValue.unknown) (2, 0) LatticeValue.overdefined,
         [], []⟩
        ⟨[], [(2, 0)]⟩
        (fun _ => some [FoldResult.attr (Attr.int ⟨8, false, 5⟩)])).map (2, 0) =
      LatticeValue.overdefined) :=
  ⟨rfl,
   C3_overdefined_monotone_amended.1 _ (2, 0) _ rfl,
   C3_overdefined_monotone_amended.2 _ ⟨[], [(2, 0)]⟩ _ (2, 0) (by decide) rfl⟩

/-- Helper: `getExtendedLatticeValue` returns Unknown only when the queried
entry itself is Unknown. -/
theorem getExtendedLatticeValue_ne_unknown (m : Key → LatticeValue) (k : Key)
    (t : FType) (b : Bool) (h : m k ≠ LatticeValue.unknown) :
    getExtendedLatticeValue m k t b ≠ LatticeValue.unknown := by
  unfold getExtendedLatticeValue
  cases hm : m k with
  | unknown => exact absurd hm h
  | unwritten => simp
  | overdefined => simp
  | constant a =>
    cases a with
    | bool bb => simp
    | int ia =>
      simp only
      split
      · simp
      · split
        · simp
        · simp

/-- C8 (counterexample): a connect whose destination (value 0) is classified
as an unrecognized operation result, with a Constant source leaf (value 1),
makes `visitConnectLike` emit the diagnostic while leaving every lattice
entry unchanged — the destination entry is not marked Overdefined. -/
theorem C8_unhandled_dest_counterexample :
    ((visitConnectLike
        ⟨fun v => if v ≤ 1 then some (FType.ground 8 false) else none,
         fun _ => DestKind.otherOp, fun _ => [], fun _ => none, fun _ _ => 0⟩
        ⟨updateMap (fun _ => LatticeValue.unknown) (1, 0)
           (LatticeValue.constant (Attr.int ⟨8, false, 7⟩)), [], []⟩
        0 1).diags = [0]) ∧
    ((visitConnectLike
        ⟨fun v => if v ≤ 1 then some (FType.ground 8 false) else none,
         fun _ => DestKind.otherOp, fun _ => [], fun _ => none, fun _ _ => 0⟩
        ⟨updateMap (fun _ => LatticeValue.unknown) (1, 0)
           (LatticeValue.constant (Attr.int ⟨8, false, 7⟩)), [], []⟩
        0 1).map (0, 0) = LatticeValue.unknown) ∧
    ((visitConnectLike
        ⟨fun v => if v ≤ 1 then some (FType.ground 8 false) else none,
         fun _ => DestKind.otherOp, fun _ => [], fun _ => none, fun _ _ => 0⟩
        ⟨updateMap (fun _ => LatticeValue.unknown) (1, 0)
           (LatticeValue.constant (Attr.int ⟨8, false, 7⟩)), [], []⟩
        0 1).map (0, 0) ≠ LatticeValue.overdefined) ∧
    ((visitConnectLike
        ⟨fun v => if v ≤ 1 then some (FType.ground 8 false) else none,
         fun _ => DestKind.otherOp, fun _ => [], fun _ => none, fun _ _ => 0⟩
        ⟨updateMap (fun _ => LatticeValue.unknown) (1, 0)
           (LatticeValue.constant (Attr.int ⟨8, false, 7⟩)), [], []⟩
        0 1).map (1, 0) =
      LatticeValue.constant (Attr.int ⟨8, false, 7⟩)) :=
  ⟨rfl, rfl, by decide, rfl⟩

/-- C8 (amended): on a connect whose destination kind is unrecognized and
whose source leaf has any known lattice state, `visitConnectLike` emits the
diagnostic attached to the operation and leaves the lattice map unchanged;
no entry is marked Overdefined.  (Marking source and destination Overdefined
happens only in the separate foreign-destination-type case, which emits no
diagnostic.) -/
theorem C8_unhandled_dest_diagnoses_without_marking :
    ∀ (ctx : CPCtx) (s : PropState) (dest src : Nat) (w : Int) (sg : Bool),
      ctx.typeOf dest = some (FType.ground w sg) →
      ctx.destKind dest = DestKind.otherOp →
      s.map (src, 0) ≠ LatticeValue.unknown →
      (visitConnectLike ctx s dest src).diags = s.diags ++ [dest] ∧
      (visitConnectLike ctx s dest src).map = s.map := by
  intro ctx s dest src w sg hty hdk hsrc
  have hsrcv := getExtendedLatticeValue_ne_unknown s.map (src, 0)
    ((FType.ground w sg).getPassiveType) false hsrc
  have hne : (getExtendedLatticeValue s.map (src, 0)
      ((FType.ground w sg).getPassiveType) false).isUnknown = false := by
    cases hg : getExtendedLatticeValue s.map (src, 0)
        ((FType.ground w sg).getPassiveType) false with
    | unknown => exact absurd hg hsrcv
    | unwritten => rfl
    | constant a => rfl
    | overdefined => rfl
  have key : propagateElementLattice ctx dest src s 0 (FType.ground w sg) =
      { s with diags := s.diags ++ [dest] } := by
    simp only [propagateElementLattice, getSubField, getFieldRefFromValue,
      Nat.add_zero, hne, Bool.false_eq_true, if_false, hdk]
  have main : visitConnectLike ctx s dest src =
      { s with diags := s.diags ++ [dest] } := by
    unfold visitConnectLike
    rw [hty]
    show List.foldl
        (fun s p => propagateElementLattice ctx dest src s p.1 p.2) s
        [(0, FType.ground w sg)] = _
    show propagateElementLattice ctx dest src s 0 (FType.ground w sg) = _
    exact key
  rw [main]
  exact ⟨rfl, rfl⟩

/-- Witness for C8 (amended): the concrete unrecognized-destination connect
of the counterexample, with its Constant source. -/
theorem C8_unhandled_dest_diagnoses_without_marking_witness :
    ((⟨fun v => if v ≤ 1 then some (FType.ground 8 false) else none,
       fun _ => DestKind.otherOp, fun _ => [], fun _ => none,
       fun _ _ => 0⟩ : CPCtx).typeOf 0 = some (FType.ground 8 false)) ∧
    ((⟨fun v => if v ≤ 1 then some (FType.ground 8 false) else none,
       fun _ => DestKind.otherOp, fun _ => [], fun _ => none,
       fun _ _ => 0⟩ : CPCtx).destKind 0 = DestKind.otherOp) ∧
    ((⟨updateMap (fun _ => LatticeValue.unknown) (1, 0)
         (LatticeValue.constant (Attr.int ⟨8, false, 7⟩)), [], []⟩ :
        PropState).map (1, 0) ≠ LatticeValue.unknown) ∧
    ((visitConnectLike
        ⟨fun v => if v ≤ 1 then some (FType.ground 8 false) else none,
         fun _ => DestKind.otherOp, fun _ => [], fun _ => none, fun _ _ => 0⟩
        ⟨updateMap (fun _ => LatticeValue.unknown) (1, 0)
           (LatticeValue.constant (Attr.int ⟨8, false, 7⟩)), [], []⟩
        0 1).diags = [] ++ [0] ∧
      (visitConnectLike
        ⟨fun v => if v ≤ 1 then some (FType.ground 8 false) else none,
         fun _ => DestKind.otherOp, fun _ => [], fun _ => none, fun _ _ => 0⟩
        ⟨updateMap (fun _ => LatticeValue.unknown) (1, 0)
           (LatticeValue.constant (Attr.int ⟨8, false, 7⟩)), [], []⟩
        0 1).map =
        (⟨updateMap (fun _ => LatticeValue.unknown) (1, 0)
            (LatticeValue.constant (Attr.int ⟨8, false, 7⟩)), [], []⟩ :
          PropState).map) :=
  ⟨rfl, rfl, by decide,
   C8_unhandled_dest_diagnoses_without_marking _ _ 0 1 8 false rfl rfl
     (by decide)⟩

/-- C5: when two connects drive Constant sources with different values
(through two instances of the same callee module) into the same input port,
the callee's block-argument lattice entry becomes Overdefined — not either
constant — in whichever order the two connects are visited.  Values 10/20
are the instance input-port results, 11/21 the two constant sources, and 30
the callee's block argument for the port. -/
theorem C5_conflicting_constants_make_port_overdefined :
    ∀ va wa : IntegerAttrM, va.width = 8 → wa.width = 8 → va ≠ wa →
      ((visitConnectLike
          ⟨fun _ => some (FType.ground 8 false),
           fun v => if v = 10 then DestKind.instResult 1 0
             else if v = 20 then DestKind.instResult 2 0
             else DestKind.wireOrReg,
           fun _ => [], fun _ => some 0, fun _ _ => 30⟩
          (visitConnectLike
            ⟨fun _ => some (FType.ground 8 false),
             fun v => if v = 10 then DestKind.instResult 1 0
               else if v = 20 then DestKind.instResult 2 0
               else DestKind.wireOrReg,
             fun _ => [], fun _ => some 0, fun _ _ => 30⟩
            ⟨fun k => if k = (11, 0) then LatticeValue.constant (Attr.int va)
               else if k = (21, 0) then LatticeValue.constant (Attr.int wa)
               else LatticeValue.unknown, [], []⟩
            10 11)
          20 21).map (30, 0) = LatticeValue.overdefined) ∧
      ((visitConnectLike
          ⟨fun _ => some (FType.ground 8 false),
           fun v => if v = 10 then DestKind.instResult 1 0
             else if v = 20 then DestKind.instResult 2 0
             else DestKind.wireOrReg,
           fun _ => [], fun _ => some 0, fun _ _ => 30⟩
          (visitConnectLike
            ⟨fun _ => some (FType.ground 8 false),
             fun v => if v = 10 then DestKind.instResult 1 0
               else if v = 20 then DestKind.instResult 2 0
               else DestKind.wireOrReg,
             fun _ => [], fun _ => some 0, fun _ _ => 30⟩
            ⟨fun k => if k = (11, 0) then LatticeValue.constant (Attr.int va)
               else if k = (21, 0) then LatticeValue.constant (Attr.int wa)
               else LatticeValue.unknown, [], []⟩
            20 21)
          10 11).map (30, 0) = LatticeValue.overdefined) := by
  intro va wa hva hwa hne
  have hne1 : LatticeValue.constant (Attr.int va) ≠
      LatticeValue.constant (Attr.int wa) := by simpa using hne
  have hne2 : LatticeValue.constant (Attr.int wa) ≠
      LatticeValue.constant (Attr.int va) := fun h => hne1 h.symm
  constructor <;>
    simp [visitConnectLike, propagateElementLattice, getExtendedLatticeValue,
      mergeLatticeValue, mergeLatticeValueEntry, LatticeValue.mergeIn,
      updateMap, foreachFIRRTLGroundType, FType.isGround, FType.getPassiveType,
      FType.getBitWidthOrSentinel, getSubField, getFieldRefFromValue,
      LatticeValue.isUnknown, LatticeValue.isOverdefined,
      LatticeValue.isUnwritten, hva, hwa, hne1, hne2]

/-- Witness for C5: the two concrete 8-bit constants 3 and 4. -/
theorem C5_conflicting_constants_make_port_overdefined_witness :
    ((⟨8, false, 3⟩ : IntegerAttrM).width = 8) ∧
    ((⟨8, false, 4⟩ : IntegerAttrM).width = 8) ∧
    ((⟨8, false, 3⟩ : IntegerAttrM) ≠ ⟨8, false, 4⟩) ∧
    ((visitConnectLike
        ⟨fun _ => some (FType.ground 8 false),
         fun v => if v = 10 then DestKind.instResult 1 0
           else if v = 20 then DestKind.instResult 2 0
           else DestKind.wireOrReg,
         fun _ => [], fun _ => some 0, fun _ _ => 30⟩
        (visitConnectLike
          ⟨fun _ => some (FType.ground 8 false),
           fun v => if v = 10 then DestKind.instResult 1 0
             else if v = 20 then DestKind.instResult 2 0
             else DestKind.wireOrReg,
           fun _ => [], fun _ => some 0, fun _ _ => 30⟩
          ⟨fun k => if k = (11, 0) then
               LatticeValue.constant (Attr.int ⟨8, false, 3⟩)
             else if k = (21, 0) then
               LatticeValue.constant (Attr.int ⟨8, false, 4⟩)
             else LatticeValue.unknown, [], []⟩
          10 11)
        20 21).map (30, 0) = LatticeValue.overdefined) :=
  ⟨rfl, rfl, by decide,
   (C5_conflicting_constants_make_port_overdefined ⟨8, false, 3⟩ ⟨8, false, 4⟩
     rfl rfl (by decide)).1⟩

open IMDCE

/-- Helper: `markAlive(Value)` does not touch `liveInstances`. -/
theorem markAliveValue_liveInstances (s : DCEState) (v : Nat) :
    (markAliveValue s v).liveInstances = s.liveInstances := by
  unfold markAliveValue; split <;> rfl

/-- Helper: `markAlive(Value)` does not touch `lazyLiveInputPorts`. -/
theorem markAliveValue_lazy (s : DCEState) (v : Nat) :
    (markAliveValue s v).lazyLiveInputPorts = s.lazyLiveInputPorts := by
  unfold markAliveValue; split <;> rfl

/-- Helper: `markAlive(Value)` only grows `liveValues`. -/
theorem markAliveValue_mono (s : DCEState) (v x : Nat)
    (h : x ∈ s.liveValues) : x ∈ (markAliveValue s v).liveValues := by
  unfold markAliveValue; split
  · exact h
  · exact List.mem_cons_of_mem _ h

/-- Helper: after `markAlive(Value)` the value is alive. -/
theorem markAliveValue_self (s : DCEState) (v : Nat) :
    v ∈ (markAliveValue s v).liveValues := by
  unfold markAliveValue; split
  · assumption
  · exact List.mem_cons_self _ _

/-- Helper: a `markAlive(Value)` loop does not touch `liveInstances`. -/
theorem foldl_markAliveValue_liveInstances (l : List Nat) (s : DCEState) :
    (l.foldl markAliveValue s).liveInstances = s.liveInstances := by
  induction l generalizing s with
  | nil => rfl
  | cons x xs ih => rw [List.foldl_cons, ih, markAliveValue_liveInstances]

/-- Helper: a `markAlive(Value)` loop does not touch `lazyLiveInputPorts`. -/
theorem foldl_markAliveValue_lazy (l : List Nat) (s : DCEState) :
    (l.foldl markAliveValue s).lazyLiveInputPorts = s.lazyLiveInputPorts := by
  induction l generalizing s with
  | nil => rfl
  | cons x xs ih => rw [List.foldl_cons, ih, markAliveValue_lazy]

/-- Helper: a `markAlive(Value)` loop only grows `liveValues`. -/
theorem foldl_markAliveValue_mono (l : List Nat) (s : DCEState) (x : Nat)
    (h : x ∈ s.liveValues) : x ∈ (l.foldl markAliveValue s).liveValues := by
  induction l generalizing s with
  | nil => exact h
  | cons y ys ih => exact ih _ (markAliveValue_mono _ _ _ h)

/-- Helper: a `markAlive(Value)` loop makes every listed value alive. -/
theorem foldl_markAliveValue_mem (l : List Nat) (s : DCEState) (x : Nat)
    (h : x ∈ l) : x ∈ (l.foldl markAliveValue s).liveValues := by
  induction l generalizing s with
  | nil => cases h
  | cons y ys ih =>
    rw [List.foldl_cons]
    rcases List.mem_cons.mp h with rfl | hx
    · exact foldl_markAliveValue_mono ys _ x (markAliveValue_self s x)
    · exact ih _ hx

/-- Helper: `visitUser` does not touch `liveInstances`. -/
theorem visitUser_liveInstances (s : DCEState) (op : DOp) :
    (visitUser s op).liveInstances = s.liveInstances := by
  cases op with
  | connect d src =>
    show (if d ∈ s.liveValues then markAliveValue s src else s).liveInstances = _
    split
    · exact markAliveValue_liveInstances _ _
    · rfl
  | subelem o r =>
    show (if o ∈ s.liveValues then markAliveValue s r else s).liveInstances = _
    split
    · exact markAliveValue_liveInstances _ _
    · rfl
  | otherUser => rfl

/-- Helper: `visitUser` does not touch `lazyLiveInputPorts`. -/
theorem visitUser_lazy (s : DCEState) (op : DOp) :
    (visitUser s op).lazyLiveInputPorts = s.lazyLiveInputPorts := by
  cases op with
  | connect d src =>
    show (if d ∈ s.liveValues then markAliveValue s src
      else s).lazyLiveInputPorts = _
    split
    · exact markAliveValue_lazy _ _
    · rfl
  | subelem o r =>
    show (if o ∈ s.liveValues then markAliveValue s r
      else s).lazyLiveInputPorts = _
    split
    · exact markAliveValue_lazy _ _
    · rfl
  | otherUser => rfl

/-- Helper: `visitUser` only grows `liveValues`. -/
theorem visitUser_mono (s : DCEState) (op : DOp) (x : Nat)
    (h : x ∈ s.liveValues) : x ∈ (visitUser s op).liveValues := by
  cases op with
  | connect d src =>
    show x ∈ (if d ∈ s.liveValues then markAliveValue s src else s).liveValues
    split
    · exact markAliveValue_mono _ _ _ h
    · exact h
  | subelem o r =>
    show x ∈ (if o ∈ s.liveValues then markAliveValue s r else s).liveValues
    split
    · exact markAliveValue_mono _ _ _ h
    · exact h
  | otherUser => exact h

/-- Helper: the user-propagation loop does not touch `liveInstances`. -/
theorem foldl_visitUser_liveInstances (l : List DOp) (s : DCEState) :
    (l.foldl visitUser s).liveInstances = s.liveInstances := by
  induction l generalizing s with
  | nil => rfl
  | cons x xs ih => rw [List.foldl_cons, ih, visitUser_liveInstances]

/-- Helper: the user-propagation loop does not touch `lazyLiveInputPorts`. -/
theorem foldl_visitUser_lazy (l : List DOp) (s : DCEState) :
    (l.foldl visitUser s).lazyLiveInputPorts = s.lazyLiveInputPorts := by
  induction l generalizing s with
  | nil => rfl
  | cons x xs ih => rw [List.foldl_cons, ih, visitUser_lazy]

/-- Helper: the user-propagation loop only grows `liveValues`. -/
theorem foldl_visitUser_mono (l : List DOp) (s : DCEState) (x : Nat)
    (h : x ∈ s.liveValues) : x ∈ (l.foldl visitUser s).liveValues := by
  induction l generalizing s with
  | nil => exact h
  | cons y ys ih => exact ih _ (visitUser_mono _ _ _ h)

/-- Helper: one input-port propagation step does not touch `liveInstances`. -/
theorem pti_liveInstances (ctx : DCECtx) (s : DCEState) (r : Nat) :
    (propagateToInstanceInput ctx s r).liveInstances = s.liveInstances := by
  cases hd : definingInstance ctx r with
  | none => unfold propagateToInstanceInput; rw [hd]
  | some i =>
    unfold propagateToInstanceInput
    rw [hd]
    show (if i ∈ s.liveInstances then markAliveValue s r
      else { s with lazyLiveInputPorts :=
               fun j => if j = i then s.lazyLiveInputPorts i ++ [r]
                        else s.lazyLiveInputPorts j }).liveInstances =
      s.liveInstances
    split
    · exact markAliveValue_liveInstances _ _
    · rfl

/-- Helper: one input-port propagation step only grows `liveValues`. -/
theorem pti_mono (ctx : DCECtx) (s : DCEState) (r x : Nat)
    (h : x ∈ s.liveValues) :
    x ∈ (propagateToInstanceInput ctx s r).liveValues := by
  cases hd : definingInstance ctx r with
  | none => unfold propagateToInstanceInput; rw [hd]; exact h
  | some i =>
    unfold propagateToInstanceInput
    rw [hd]
    show x ∈ (if i ∈ s.liveInstances then markAliveValue s r
      else { s with lazyLiveInputPorts :=
               fun j => if j = i then s.lazyLiveInputPorts i ++ [r]
                        else s.lazyLiveInputPorts j }).liveValues
    split
    · exact markAliveValue_mono _ _ _ h
    · exact h

/-- Helper: one input-port propagation step only appends to the pending
lists. -/
theorem pti_lazy_mono (ctx : DCECtx) (s : DCEState) (r x j : Nat)
    (h : x ∈ s.lazyLiveInputPorts j) :
    x ∈ (propagateToInstanceInput ctx s r).lazyLiveInputPorts j := by
  cases hd : definingInstance ctx r with
  | none => unfold propagateToInstanceInput; rw [hd]; exact h
  | some i =>
    unfold propagateToInstanceInput
    rw [hd]
    show x ∈ (if i ∈ s.liveInstances then markAliveValue s r
      else { s with lazyLiveInputPorts :=
               fun j => if j = i then s.lazyLiveInputPorts i ++ [r]
                        else s.lazyLiveInputPorts j }).lazyLiveInputPorts j
    split
    · rw [markAliveValue_lazy]; exact h
    · show x ∈ (if j = i then s.lazyLiveInputPorts i ++ [r]
        else s.lazyLiveInputPorts j)
      by_cases hj : j = i
      · subst hj
        simp only [if_pos rfl]
        exact List.mem_append_left _ h
      · simp only [if_neg hj]
        exact h

/-- Helper: one input-port propagation step keeps the pending list of any
already-alive instance unchanged. -/
theorem pti_lazy_live (ctx : DCECtx) (s : DCEState) (r j : Nat)
    (hj : j ∈ s.liveInstances) :
    (propagateToInstanceInput ctx s r).lazyLiveInputPorts j =
      s.lazyLiveInputPorts j := by
  cases hd : definingInstance ctx r with
  | none => unfold propagateToInstanceInput; rw [hd]
  | some i =>
    unfold propagateToInstanceInput
    rw [hd]
    show (if i ∈ s.liveInstances then markAliveValue s r
      else { s with lazyLiveInputPorts :=
               fun j => if j = i then s.lazyLiveInputPorts i ++ [r]
                        else s.lazyLiveInputPorts j }).lazyLiveInputPorts j =
      s.lazyLiveInputPorts j
    split
    · rw [markAliveValue_lazy]
    · rename_i hni
      have hji : j ≠ i := fun he => hni (he ▸ hj)
      show (if j = i then s.lazyLiveInputPorts i ++ [r]
        else s.lazyLiveInputPorts j) = s.lazyLiveInputPorts j
      simp only [if_neg hji]

/-- Helper: one input-port propagation step queues an instance result whose
owning instance is not yet alive. -/
theorem pti_queue (ctx : DCECtx) (s : DCEState) (r i : Nat)
    (hdef : definingInstance ctx r = some i) (hni : i ∉ s.liveInstances) :
    r ∈ (propagateToInstanceInput ctx s r).lazyLiveInputPorts i := by
  unfold propagateToInstanceInput
  rw [hdef]
  show r ∈ (if i ∈ s.liveInstances then markAliveValue s r
    else { s with lazyLiveInputPorts :=
             fun j => if j = i then s.lazyLiveInputPorts i ++ [r]
                      else s.lazyLiveInputPorts j }).lazyLiveInputPorts i
  rw [if_neg hni]
  show r ∈ (if i = i then s.lazyLiveInputPorts i ++ [r]
    else s.lazyLiveInputPorts i)
  simp only [if_pos rfl]
  exact List.mem_append_right _ (List.mem_cons_self _ _)

/-- Helper: the input-port propagation loop does not touch `liveInstances`. -/
theorem foldl_pti_liveInstances (ctx : DCECtx) (l : List Nat) (s : DCEState) :
    (l.foldl (propagateToInstanceInput ctx) s).liveInstances =
      s.liveInstances := by
  induction l generalizing s with
  | nil => rfl
  | cons x xs ih => rw [List.foldl_cons, ih, pti_liveInstances]

/-- Helper: the input-port propagation loop only grows `liveValues`. -/
theorem foldl_pti_mono (ctx : DCECtx) (l : List Nat) (s : DCEState) (x : Nat)
    (h : x ∈ s.liveValues) :
    x ∈ (l.foldl (propagateToInstanceInput ctx) s).liveValues := by
  induction l generalizing s with
  | nil => exact h
  | cons y ys ih => exact ih _ (pti_mono _ _ _ _ h)

/-- Helper: the input-port propagation loop only appends to pending lists. -/
theorem foldl_pti_lazy_mono (ctx : DCECtx) (l : List Nat) (s : DCEState)
    (x j : Nat) (h : x ∈ s.lazyLiveInputPorts j) :
    x ∈ (l.foldl (propagateToInstanceInput ctx) s).lazyLiveInputPorts j := by
  induction l generalizing s with
  | nil => exact h
  | cons y ys ih => exact ih _ (pti_lazy_mono _ _ _ _ _ h)

/-- Helper: the input-port propagation loop keeps the pending list of any
already-alive instance unchanged. -/
theorem foldl_pti_lazy_live (ctx : DCECtx) (l : List Nat) (s : DCEState)
    (j : Nat) (hj : j ∈ s.liveInstances) :
    (l.foldl (propagateToInstanceInput ctx) s).lazyLiveInputPorts j =
      s.lazyLiveInputPorts j := by
  induction l generalizing s with
  | nil => rfl
  | cons y ys ih =>
    rw [List.foldl_cons, ih, pti_lazy_live]
    · exact hj
    · rw [pti_liveInstances]; exact hj

/-- Helper: the input-port propagation loop queues every listed instance
result whose owning instance is not yet alive. -/
theorem foldl_pti_queue (ctx : DCECtx) (l : List Nat) (s : DCEState)
    (r i : Nat) (hr : r ∈ l) (hdef : definingInstance ctx r = some i)
    (hni : i ∉ s.liveInstances) :
    r ∈ (l.foldl (propagateToInstanceInput ctx) s).lazyLiveInputPorts i := by
  induction l generalizing s with
  | nil => cases hr
  | cons y ys ih =>
    rw [List.foldl_cons]
    rcases List.mem_cons.mp hr with rfl | hx
    · exact foldl_pti_lazy_mono ctx ys _ r i (pti_queue ctx s r i hdef hni)
    · refine ih _ hx ?_
      rw [pti_liveInstances]
      exact hni

/-- Helper: a state extension with unchanged instances, unchanged pending
lists of alive instances, and grown `liveValues` preserves the lazy-flush
property. -/
theorem pendingAlive_extends {s s' : DCEState}
    (hI : s'.liveInstances = s.liveInstances)
    (hL : ∀ j, j ∈ s.liveInstances →
      s'.lazyLiveInputPorts j = s.lazyLiveInputPorts j)
    (hV : ∀ x, x ∈ s.liveValues → x ∈ s'.liveValues)
    (h : PendingAlive s) : PendingAlive s' := by
  intro i hi p hp
  rw [hI] at hi
  rw [hL i hi] at hp
  exact hV p (h i hi p hp)

/-- Helper: the dispatch part of `visitValue` preserves the lazy-flush
property. -/
theorem visitValueDispatch_pendingAlive (ctx : DCECtx) (s : DCEState) (v : Nat)
    (h : PendingAlive s) : PendingAlive (visitValueDispatch ctx s v) := by
  cases hk : ctx.valueKind v with
  | blockArg m argNo =>
    unfold visitValueDispatch
    rw [hk]
    show PendingAlive (if ctx.portDir m argNo = Dir.inp then
      (ctx.r2i v).foldl (propagateToInstanceInput ctx) s else s)
    split
    · refine pendingAlive_extends (foldl_pti_liveInstances _ _ _) ?_ ?_ h
      · intro j hj; exact foldl_pti_lazy_live ctx _ _ j hj
      · intro x hx; exact foldl_pti_mono _ _ _ _ hx
    · exact h
  | instResult i resultNo =>
    unfold visitValueDispatch
    rw [hk]
    show PendingAlive (match ctx.instModule i with
      | none => s
      | some m =>
        if ctx.portDir m resultNo = Dir.inp then s
        else
          markAliveValue
            (if i ∈ s.liveInstances then s
             else (({ s with liveInstances := i :: s.liveInstances} :
                 DCEState).lazyLiveInputPorts i).foldl markAliveValue
               { s with liveInstances := i :: s.liveInstances })
            (ctx.moduleArg m resultNo))
    cases hm : ctx.instModule i with
    | none => exact h
    | some m =>
      show PendingAlive (if ctx.portDir m resultNo = Dir.inp then s
        else
          markAliveValue
            (if i ∈ s.liveInstances then s
             else (({ s with liveInstances := i :: s.liveInstances} :
                 DCEState).lazyLiveInputPorts i).foldl markAliveValue
               { s with liveInstances := i :: s.liveInstances })
            (ctx.moduleArg m resultNo))
      split
      · exact h
      · by_cases hlive : i ∈ s.liveInstances
        · rw [if_pos hlive]
          refine pendingAlive_extends (markAliveValue_liveInstances _ _) ?_ ?_ h
          · intro j hj; rw [markAliveValue_lazy]
          · intro x hx; exact markAliveValue_mono _ _ _ hx
        · rw [if_neg hlive]
          have hflush : PendingAlive
              ((({ s with liveInstances := i :: s.liveInstances} :
                DCEState).lazyLiveInputPorts i).foldl markAliveValue
                { s with liveInstances := i :: s.liveInstances }) := by
            intro j hj p hp
            rw [foldl_markAliveValue_liveInstances] at hj
            rw [congrFun (foldl_markAliveValue_lazy _ _) j] at hp
            have hj2 : j = i ∨ j ∈ s.liveInstances := List.mem_cons.mp hj
            rcases hj2 with rfl | hj3
            · exact foldl_markAliveValue_mem _ _ _ hp
            · exact foldl_markAliveValue_mono _ _ _ (h j hj3 p hp)
          refine pendingAlive_extends (markAliveValue_liveInstances _ _) ?_ ?_
            hflush
          · intro j hj; rw [markAliveValue_lazy]
          · intro x hx; exact markAliveValue_mono _ _ _ hx
  | memResult mem =>
    unfold visitValueDispatch
    rw [hk]
    show PendingAlive ((ctx.memPorts mem).foldl markAliveValue s)
    refine pendingAlive_extends (foldl_markAliveValue_liveInstances _ _) ?_ ?_ h
    · intro j hj; rw [foldl_markAliveValue_lazy]
    · intro x hx; exact foldl_markAliveValue_mono _ _ _ hx
  | opResult op =>
    unfold visitValueDispatch
    rw [hk]
    show PendingAlive ((ctx.defOperands op).foldl markAliveValue s)
    refine pendingAlive_extends (foldl_markAliveValue_liveInstances _ _) ?_ ?_ h
    · intro j hj; rw [foldl_markAliveValue_lazy]
    · intro x hx; exact foldl_markAliveValue_mono _ _ _ hx

/-- Helper: `visitValue` preserves the lazy-flush property. -/
theorem visitValue_pendingAlive (ctx : DCECtx) (s : DCEState) (v : Nat)
    (h : PendingAlive s) : PendingAlive (visitValue ctx s v) := by
  unfold visitValue
  apply visitValueDispatch_pendingAlive
  refine pendingAlive_extends (foldl_visitUser_liveInstances _ _) ?_ ?_ h
  · intro j hj; rw [foldl_visitUser_lazy]
  · intro x hx; exact foldl_visitUser_mono _ _ _ hx

/-- Helper: the worklist loop preserves the lazy-flush property. -/
theorem runWorklist_pendingAlive (ctx : DCECtx) (fuel : Nat) (s : DCEState)
    (h : PendingAlive s) : PendingAlive (runWorklist ctx fuel s) := by
  induction fuel generalizing s with
  | zero => exact h
  | succ n ih =>
    unfold runWorklist
    cases s.valueWorklist with
    | nil => exact h
    | cons v rest =>
      refine ih _ (visitValue_pendingAlive ctx _ v ?_)
      intro i hi p hp
      exact h i hi p hp

/-- Helper: seeding never touches the pending lists. -/
theorem seedState_lazy (actions : List SeedAction) :
    (seedState actions).lazyLiveInputPorts = fun _ => [] := by
  unfold seedState
  have : ∀ (l : List SeedAction) (s : DCEState),
      (l.foldl (fun s a => match a with
        | SeedAction.value v => markAliveValue s v
        | SeedAction.inst i => markAliveInstance s i) s).lazyLiveInputPorts =
        s.lazyLiveInputPorts := by
    intro l
    induction l with
    | nil => intro s; rfl
    | cons a as ih =>
      intro s
      rw [List.foldl_cons, ih]
      cases a with
      | value v =>
        show (markAliveValue s v).lazyLiveInputPorts = s.lazyLiveInputPorts
        exact markAliveValue_lazy _ _
      | inst i =>
        show (markAliveInstance s i).lazyLiveInputPorts = s.lazyLiveInputPorts
        unfold markAliveInstance; split <;> rfl
  rw [this]
  rfl

/-- Helper: the seeded state satisfies the lazy-flush property (all pending
lists are empty when the fixpoint starts). -/
theorem seedState_pendingAlive (actions : List SeedAction) :
    PendingAlive (seedState actions) := by
  intro i hi p hp
  rw [seedState_lazy] at hp
  cases hp

/-- C6: during the liveness fixpoint, (a) an alive module input port reaching
an instance result whose owning instance is not yet known alive queues that
result in the per-instance pending list rather than discarding it; (b) an
alive instance result bound to an output port of a not-yet-alive instance
makes the instance alive and marks every queued pending input port alive
(the flush); and (c) the pending-flush property holds along every path of
the run: seeding — the only phase where the other dead-to-alive transition
path, `markAlive(InstanceOp)`, executes — never touches the pending lists,
and every worklist step preserves the property, so whenever an instance is
alive, every input port ever queued for it has been marked alive. -/
theorem C6_pending_input_ports_queued_and_flushed :
    (∀ (ctx : DCECtx) (s : DCEState) (v m argNo r i n : Nat),
      ctx.valueKind v = VKind.blockArg m argNo →
      ctx.portDir m argNo = Dir.inp →
      r ∈ ctx.r2i v →
      ctx.valueKind r = VKind.instResult i n →
      i ∉ s.liveInstances →
      r ∈ (visitValue ctx s v).lazyLiveInputPorts i) ∧
    (∀ (ctx : DCECtx) (s : DCEState) (v i resultNo m : Nat),
      ctx.valueKind v = VKind.instResult i resultNo →
      ctx.instModule i = some m →
      ctx.portDir m resultNo ≠ Dir.inp →
      i ∉ s.liveInstances →
      i ∈ (visitValue ctx s v).liveInstances ∧
      ∀ p ∈ s.lazyLiveInputPorts i, p ∈ (visitValue ctx s v).liveValues) ∧
    (∀ (ctx : DCECtx) (actions : List SeedAction) (fuel : Nat),
      PendingAlive (runWorklist ctx fuel (seedState actions))) := by
  refine ⟨?_, ?_, ?_⟩
  · intro ctx s v m argNo r i n hk hdir hr hkr hni
    have hdef : definingInstance ctx r = some i := by
      unfold definingInstance; rw [hkr]
    have hni' : i ∉ ((ctx.users v).foldl visitUser s).liveInstances := by
      rw [foldl_visitUser_liveInstances]; exact hni
    unfold visitValue visitValueDispatch
    simp only [hk, hdir, reduceCtorEq, eq_self_iff_true, ite_true]
    exact foldl_pti_queue ctx _ _ r i hr hdef hni'
  · intro ctx s v i resultNo m hk hm hdir hni
    have hni' : i ∉ ((ctx.users v).foldl visitUser s).liveInstances := by
      rw [foldl_visitUser_liveInstances]; exact hni
    unfold visitValue visitValueDispatch
    simp only [hk, hm]
    rw [if_neg hdir, if_neg hni']
    constructor
    · rw [markAliveValue_liveInstances, foldl_markAliveValue_liveInstances]
      exact List.mem_cons_self _ _
    · intro p hp
      apply markAliveValue_mono
      apply foldl_markAliveValue_mem
      have hp' : p ∈ ((ctx.users v).foldl visitUser s).lazyLiveInputPorts i := by
        rw [congrFun (foldl_visitUser_lazy (ctx.users v) s) i]
        exact hp
      exact hp'
  · intro ctx actions fuel
    exact runWorklist_pendingAlive ctx fuel _ (seedState_pendingAlive actions)

/-- Witness for C6: the queueing clause with input-port value 10 and pending
result 20 of the dead instance 5; the flush clause with output result 21 and
a pending list already holding 20; and the invariant clause after a seeded
4-step run. -/
theorem C6_pending_input_ports_queued_and_flushed_witness :
    (exCtx.valueKind 10 = VKind.blockArg 0 0 ∧ exCtx.portDir 0 0 = Dir.inp ∧
      20 ∈ exCtx.r2i 10 ∧ exCtx.valueKind 20 = VKind.instResult 5 0 ∧
      5 ∉ initState.liveInstances ∧
      20 ∈ (visitValue exCtx initState 10).lazyLiveInputPorts 5) ∧
    (exCtx.valueKind 21 = VKind.instResult 5 1 ∧ exCtx.instModule 5 = some 0 ∧
      exCtx.portDir 0 1 ≠ Dir.inp ∧
      5 ∉ (⟨[], [], fun j => if j = 5 then [20] else [], []⟩ :
        DCEState).liveInstances ∧
      (5 ∈ (visitValue exCtx
          ⟨[], [], fun j => if j = 5 then [20] else [], []⟩ 21).liveInstances ∧
        ∀ p ∈ (⟨[], [], fun j => if j = 5 then [20] else [], []⟩ :
            DCEState).lazyLiveInputPorts 5,
          p ∈ (visitValue exCtx
            ⟨[], [], fun j => if j = 5 then [20] else [], []⟩ 21).liveValues)) ∧
    PendingAlive (runWorklist exCtx 4
      (seedState [SeedAction.value 10, SeedAction.inst 7])) :=
  ⟨⟨rfl, rfl, by decide, rfl, by decide,
    C6_pending_input_ports_queued_and_flushed.1 exCtx initState 10 0 0 20 5 0
      rfl rfl (by decide) rfl (by decide)⟩,
   ⟨rfl, rfl, by decide, by decide,
    C6_pending_input_ports_queued_and_flushed.2.1 exCtx
      ⟨[], [], fun j => if j = 5 then [20] else [], []⟩ 21 5 1 0
      rfl rfl (by decide) (by decide)⟩,
   C6_pending_input_ports_queued_and_flushed.2.2 exCtx
     [SeedAction.value 10, SeedAction.inst 7] 4⟩

/-- Helper: a block of driver events that all share one phase rank is
phase-monotone. -/
theorem pairwise_of_phase_levels {l : List DriverEvent} {c : Nat}
    (h : ∀ e ∈ l, DriverEvent.phase e = c) :
    l.Pairwise (fun a b => a.phase ≤ b.phase) := by
  induction l with
  | nil => exact List.Pairwise.nil
  | cons x xs ih =>
    refine List.Pairwise.cons ?_ (ih ?_)
    · intro b hb
      rw [h x (List.mem_cons_self _ _), h b (List.mem_cons_of_mem _ hb)]
    · intro e he
      exact h e (List.mem_cons_of_mem _ he)

/-- Helper: the driver trace of `runOnOperation` is monotone in phase rank. -/
theorem trace_phase_monotone (modules : List Nat) :
    (runOnOperationTrace modules).Pairwise
      (fun a b => a.phase ≤ b.phase) := by
  have hf : ∀ e ∈ modules.map DriverEvent.forwardConstantOutputPort,
      DriverEvent.phase e = 0 := by
    intro e he; obtain ⟨m, _, rfl⟩ := List.mem_map.mp he; rfl
  have hs : ∀ e ∈ modules.map DriverEvent.seedPublic,
      DriverEvent.phase e = 1 := by
    intro e he; obtain ⟨m, _, rfl⟩ := List.mem_map.mp he; rfl
  have hfix : ∀ e ∈ [DriverEvent.fixpointDone], DriverEvent.phase e = 2 := by
    intro e he
    rw [List.mem_singleton.mp he]
    rfl
  have hsig : ∀ e ∈ modules.map DriverEvent.rewriteModuleSignature,
      DriverEvent.phase e = 3 := by
    intro e he; obtain ⟨m, _, rfl⟩ := List.mem_map.mp he; rfl
  have hbody : ∀ e ∈ modules.map DriverEvent.rewriteModuleBody,
      DriverEvent.phase e = 4 := by
    intro e he; obtain ⟨m, _, rfl⟩ := List.mem_map.mp he; rfl
  have herase : ∀ e ∈ modules.map DriverEvent.eraseEmptyModule,
      DriverEvent.phase e = 5 := by
    intro e he; obtain ⟨m, _, rfl⟩ := List.mem_map.mp he; rfl
  unfold runOnOperationTrace
  refine List.pairwise_append.mpr ⟨pairwise_of_phase_levels hf, ?_, ?_⟩
  · refine List.pairwise_append.mpr ⟨pairwise_of_phase_levels hs, ?_, ?_⟩
    · refine List.pairwise_append.mpr ⟨pairwise_of_phase_levels hfix, ?_, ?_⟩
      · refine List.pairwise_append.mpr ⟨pairwise_of_phase_levels hsig, ?_, ?_⟩
        · refine List.pairwise_append.mpr ⟨pairwise_of_phase_levels hbody,
            pairwise_of_phase_levels herase, ?_⟩
          intro a ha b hb
          rw [hbody a ha, herase b hb]
          omega
        · intro a ha b hb
          rw [hsig a ha]
          rcases List.mem_append.mp hb with hb1 | hb2
          · rw [hbody b hb1]; omega
          · rw [herase b hb2]; omega
      · intro a ha b hb
        rw [hfix a ha]
        rcases List.mem_append.mp hb with hb1 | hb2
        · rw [hsig b hb1]; omega
        · rcases List.mem_append.mp hb2 with hb3 | hb4
          · rw [hbody b hb3]; omega
          · rw [herase b hb4]; omega
    · intro a ha b hb
      rw [hs a ha]
      rcases List.mem_append.mp hb with hb1 | hb2
      · rw [hfix b hb1]; omega
      · rcases List.mem_append.mp hb2 with hb3 | hb4
        · rw [hsig b hb3]; omega
        · rcases List.mem_append.mp hb4 with hb5 | hb6
          · rw [hbody b hb5]; omega
          · rw [herase b hb6]; omega
  · intro a ha b hb
    rw [hf a ha]
    exact Nat.zero_le _

/-- C7 (counterexample): for a circuit with one module, the driver's trace
runs the signature rewrite (index 3) strictly before the body rewrite
(index 4): the signature phase does not wait for body rewrites. -/
theorem C7_signature_before_body_counterexample :
    runOnOperationTrace [0] =
      [DriverEvent.forwardConstantOutputPort 0, DriverEvent.seedPublic 0,
       DriverEvent.fixpointDone, DriverEvent.rewriteModuleSignature 0,
       DriverEvent.rewriteModuleBody 0, DriverEvent.eraseEmptyModule 0] ∧
    (runOnOperationTrace [0]).indexOf (DriverEvent.rewriteModuleSignature 0) <
      (runOnOperationTrace [0]).indexOf (DriverEvent.rewriteModuleBody 0) :=
  ⟨rfl, by decide⟩

/-- C7 (amended): in `runOnOperation`, the module-signature rewrite phase
(port pruning, dead-instance erasure, instance-graph mutation) executes
sequentially and completes strictly before every per-module body rewrite
begins; the remaining instance-graph mutation, empty-module erasure, runs
strictly after every body rewrite completes.  No signature rewrite and no
empty-module erasure interleaves with the body-rewrite phase. -/
theorem C7_signature_phase_before_body_phase :
    ∀ (modules : List Nat)
      (i j : Fin (runOnOperationTrace modules).length) (mi mj : Nat),
      ((runOnOperationTrace modules).get i =
          DriverEvent.rewriteModuleSignature mi →
        (runOnOperationTrace modules).get j =
          DriverEvent.rewriteModuleBody mj →
        (i : Nat) < (j : Nat)) ∧
      ((runOnOperationTrace modules).get i = DriverEvent.rewriteModuleBody mi →
        (runOnOperationTrace modules).get j = DriverEvent.eraseEmptyModule mj →
        (i : Nat) < (j : Nat)) := by
  intro modules i j mi mj
  have hp := (List.pairwise_iff_get.mp (trace_phase_monotone modules))
  constructor
  · intro hi hj
    by_contra hij
    rcases Nat.lt_or_ge (j : Nat) (i : Nat) with hlt | hge
    · have h2 := hp j i hlt
      rw [hi, hj] at h2
      simp [DriverEvent.phase] at h2
    · have heq : (i : Nat) = (j : Nat) := by omega
      have : i = j := Fin.ext heq
      rw [this, hj] at hi
      exact DriverEvent.noConfusion hi
  · intro hi hj
    by_contra hij
    rcases Nat.lt_or_ge (j : Nat) (i : Nat) with hlt | hge
    · have h2 := hp j i hlt
      rw [hi, hj] at h2
      simp [DriverEvent.phase] at h2
    · have heq : (i : Nat) = (j : Nat) := by omega
      have : i = j := Fin.ext heq
      rw [this, hj] at hi
      exact DriverEvent.noConfusion hi

/-- Witness for C7 (amended): the one-module trace, signature at index 3,
body at index 4, erase at index 5. -/
theorem C7_signature_phase_before_body_phase_witness :
    ((runOnOperationTrace [0]).get ⟨3, by decide⟩ =
      DriverEvent.rewriteModuleSignature 0) ∧
    ((runOnOperationTrace [0]).get ⟨4, by decide⟩ =
      DriverEvent.rewriteModuleBody 0) ∧
    ((runOnOperationTrace [0]).get ⟨5, by decide⟩ =
      DriverEvent.eraseEmptyModule 0) ∧
    (3 : Nat) < (4 : Nat) ∧ (4 : Nat) < (5 : Nat) :=
  ⟨rfl, rfl, rfl,
   (C7_signature_phase_before_body_phase [0] ⟨3, by decide⟩ ⟨4, by decide⟩
     0 0).1 rfl rfl,
   (C7_signature_phase_before_body_phase [0] ⟨4, by decide⟩ ⟨5, by decide⟩
     0 0).2 rfl rfl⟩

/-- C9 (counterexample): on a module declaring a ground-typed, deletable
wire (value 1) that is never connected, with one read of the wire — the
connect driving output port 0 from it — the constant-propagation rewrite
phase neither replaces the read with an InvalidValue nor erases the wire:
the wire is still in the rewritten body and no InvalidValue operation was
created. -/
theorem C9_unconnected_wire_counterexample :
    ((ROp.wire 1 (FType.ground 8 false) true) ∈
      rewriteModuleBody (exC9Lattice 8 false) [(0, FType.ground 8 false)]
        [ROp.wire 1 (FType.ground 8 false) true, ROp.connect 0 1] 100) ∧
    countInvalids
      (rewriteModuleBody (exC9Lattice 8 false) [(0, FType.ground 8 false)]
        [ROp.wire 1 (FType.ground 8 false) true, ROp.connect 0 1] 100) = 0 := by
  decide

/-- C9 (amended): for a module declaring a ground-typed, deletable wire that
is never connected and is read by a connect into an output port, the rewrite
phase leaves the body unchanged: the initial scan marks the wire Overdefined
(`markUnwritten(Value)` calls `markOverdefined`), so no replacement applies;
the InvalidValue substitution for Unwritten values applies only to
registers; and the wire, still having a use, is not erased. -/
theorem C9_unconnected_wire_body_unchanged :
    ∀ (w : Int) (sg : Bool),
      rewriteModuleBody (exC9Lattice w sg) [(0, FType.ground w sg)]
        [ROp.wire 1 (FType.ground w sg) true, ROp.connect 0 1] 100 =
      [ROp.wire 1 (FType.ground w sg) true, ROp.connect 0 1] := by
  intro w sg
  rfl
